import Mathlib

/-!
# Verification of the backup-utility auditor

A shallow embedding of `auditor.py` (the intelligent hashing auditor): the
record store, the per-file classification engine of `run_audit`, the
post-traversal reconciliation sweep, the `find_duplicates` analysis and the
`should_exclude` filter, together with theorems settling the specification
claims about them.

Modelling conventions:
* timestamps (`mtime`, `last_seen`, the run's `current_time`) are integers;
* a file's content is represented by its digest: `calculate_sha256` returns
  `none` exactly when the Python function returns `None` (unreadable file);
* the filesystem visible to a run is the list of scanned files, which serves
  both as the traversal order of `os.walk` and as the oracle for
  `os.path.exists`;
* the SQLite table is a list of rows in insertion order (`SELECT` without
  `ORDER BY` is modelled as row order, `fetchone` as the first match) and the
  store file is an `Option DB` (`none` = no database file yet; `init_db`
  creates it);
* `LIKE 'target%'` compares ASCII letters case-insensitively in SQLite, hence
  the ASCII lower-casing in `likePrefixMatch` (targets are assumed
  wildcard-free).
-/

namespace BackupAuditor

/-- One row of the `file_hashes` table. -/
structure FileRecord where
  id : Nat
  file_path : String
  file_name : String
  file_size : Nat
  mtime : Int
  sha256_hash : String
  last_seen : Int
  status : String
deriving Repr, DecidableEq

/-- The `file_hashes` table: rows in insertion order plus the next
`AUTOINCREMENT` id. -/
structure DB where
  rows : List FileRecord
  nextId : Nat
deriving Repr, DecidableEq

def emptyDB : DB := ⟨[], 1⟩

/-- `init_db`: opening the SQLite connection creates the database file and the
table when absent, and leaves an existing one unchanged. -/
def initDB : Option DB → DB
  | none => emptyDB
  | some d => d

/-- A file as seen by the traversal: path, basename, `st_size`, `st_mtime`,
and its content digest (`none` when hashing would fail with an `IOError`). -/
structure ScannedFile where
  path : String
  name : String
  size : Nat
  mtime : Int
  content : Option String
deriving Repr, DecidableEq

/-- `calculate_sha256`: digest of the file's bytes, or `none` on a read
error.  The digest is carried directly by the model of the file. -/
def calculate_sha256 (f : ScannedFile) : Option String := f.content

/-- `os.path.exists` over the modelled filesystem. -/
def pathExists (fs : List ScannedFile) (p : String) : Bool :=
  fs.any (fun f => f.path == p)

/-- The configuration keys consumed by `should_exclude`. -/
structure Config where
  exclusions : List String
  ext_filter : List String
deriving Repr

/-- `listHasPrefix pat s`: the character list `pat` begins `s`. -/
def listHasPrefix : List Char → List Char → Bool
  | [], _ => true
  | _ :: _, [] => false
  | p :: ps, c :: cs => p == c && listHasPrefix ps cs

/-- Occurrence of `pat` at any position of the character list. -/
def strContainsAux (pat : List Char) : List Char → Bool
  | [] => pat.isEmpty
  | c :: cs => listHasPrefix pat (c :: cs) || strContainsAux pat cs

/-- Python's substring test `pat in s` (the empty pattern always matches). -/
def strContains (s pat : String) : Bool :=
  strContainsAux pat.toList s.toList

/-- ASCII lower-casing (`str.lower` for the basic latin range, and the
case-folding SQLite's `LIKE` applies). -/
def strLower (s : String) : String :=
  String.mk (s.toList.map Char.toLower)

/-- Index of the last occurrence of `c` in `l`, or `-1` (as in `str.rfind`). -/
def lastIdxAux (l : List Char) (c : Char) (i : Nat) (acc : Int) : Int :=
  match l with
  | [] => acc
  | x :: xs => lastIdxAux xs c (i + 1) (if x == c then Int.ofNat i else acc)

/-- The extension part of `os.path.splitext`: the suffix from the last dot of
the basename, unless the basename consists only of leading dots up to it. -/
def splitextExt (p : String) : String :=
  let l := p.toList
  let sepIndex := lastIdxAux l '/' 0 (-1)
  let dotIndex := lastIdxAux l '.' 0 (-1)
  if sepIndex < dotIndex then
    let between := (l.drop (sepIndex + 1).toNat).take (dotIndex - sepIndex - 1).toNat
    if between.any (fun ch => ch != '.') then String.mk (l.drop dotIndex.toNat) else ""
  else ""

/-- `should_exclude`: substring exclusions first (both sides lowercased), then
the extension allow-list (lowercased extension, list taken verbatim). -/
def should_exclude (cfg : Config) (file_path : String) : Bool :=
  let path_lower := strLower file_path
  if cfg.exclusions.any (fun ex => strContains path_lower (strLower ex)) then
    true
  else if cfg.ext_filter.isEmpty then
    false
  else
    !(cfg.ext_filter.contains (strLower (splitextExt file_path)))

/-- `SELECT ... WHERE file_path = ?` followed by `fetchone`. -/
def findByPath (db : DB) (p : String) : Option FileRecord :=
  db.rows.find? (fun r => r.file_path == p)

/-- `UPDATE file_hashes SET ... WHERE id = ?`. -/
def updateById (db : DB) (i : Nat) (g : FileRecord → FileRecord) : DB :=
  { db with rows := db.rows.map (fun r => if r.id == i then g r else r) }

/-- `INSERT INTO file_hashes (file_path, file_name, file_size, mtime,
sha256_hash, last_seen) VALUES (...)`: `status` takes its default `'active'`
and `id` the next autoincrement value. -/
def insertRecord (db : DB) (p nm : String) (sz : Nat) (mt : Int) (h : String)
    (t : Int) : DB :=
  { rows := db.rows ++ [⟨db.nextId, p, nm, sz, mt, h, t, "active"⟩],
    nextId := db.nextId + 1 }

/-- The classification outcome of one scanned file. -/
inductive Classification where
  | Unchanged
  | New
  | Modified
  | Moved
  | BitRot
  | HashError
deriving Repr, DecidableEq

/-- The per-file body of `run_audit`'s loop (lines 148–208 of `auditor.py`),
returning the classification and the mutated store. -/
def processFile (fs : List ScannedFile) (force_rehash : Bool) (current_time : Int)
    (db : DB) (f : ScannedFile) : Classification × DB :=
  match findByPath db f.path with
  | some r =>
    if !force_rehash && r.file_size == f.size && r.mtime == f.mtime then
      (.Unchanged,
        updateById db r.id (fun x => { x with last_seen := current_time, status := "active" }))
    else
      match calculate_sha256 f with
      | none => (.HashError, db)
      | some new_hash =>
        if !force_rehash && r.file_size == f.size && r.mtime == f.mtime
            && new_hash != r.sha256_hash then
          (.BitRot,
            updateById db r.id (fun x =>
              { x with sha256_hash := new_hash, last_seen := current_time,
                       status := "corrupted" }))
        else
          (.Modified,
            updateById db r.id (fun x =>
              { x with file_size := f.size, mtime := f.mtime, sha256_hash := new_hash,
                       last_seen := current_time, status := "active" }))
  | none =>
    match calculate_sha256 f with
    | none => (.HashError, db)
    | some new_hash =>
      let cands := db.rows.filter (fun r => r.sha256_hash == new_hash && r.file_size == f.size)
      match cands.find? (fun c => !pathExists fs c.file_path) with
      | some c =>
        (.Moved,
          updateById db c.id (fun x =>
            { x with file_path := f.path, file_name := f.name, mtime := f.mtime,
                     last_seen := current_time, status := "active" }))
      | none =>
        (.New, insertRecord db f.path f.name f.size f.mtime new_hash current_time)

/-- The per-run counters of `run_audit`. -/
structure Stats where
  scanned : Nat
  skipped_unchanged : Nat
  new_files : Nat
  modified_files : Nat
  moved_files : Nat
  bitrot_detected : Nat
  removed_files : Nat
  errors : Nat
deriving Repr, DecidableEq

def zeroStats : Stats := ⟨0, 0, 0, 0, 0, 0, 0, 0⟩

/-- Update the counters for one classification outcome. -/
def tally (s : Stats) (c : Classification) : Stats :=
  match c with
  | .Unchanged => { s with skipped_unchanged := s.skipped_unchanged + 1 }
  | .New => { s with new_files := s.new_files + 1 }
  | .Modified => { s with modified_files := s.modified_files + 1 }
  | .Moved => { s with moved_files := s.moved_files + 1 }
  | .BitRot => { s with bitrot_detected := s.bitrot_detected + 1 }
  | .HashError => { s with errors := s.errors + 1 }

/-- One iteration of the traversal loop: apply the exclusion filter, count the
file as scanned, classify it and tally the outcome. -/
def scanStep (cfg : Config) (fs : List ScannedFile) (force : Bool) (t : Int)
    (acc : DB × Stats) (f : ScannedFile) : DB × Stats :=
  if should_exclude cfg f.path then acc
  else
    let st := { acc.2 with scanned := acc.2.scanned + 1 }
    let res := processFile fs force t acc.1 f
    (res.2, tally st res.1)

/-- The full traversal phase of `run_audit` over the files under the target. -/
def runFiles (cfg : Config) (fs : List ScannedFile) (force : Bool) (t : Int)
    (db : DB) : DB × Stats :=
  fs.foldl (scanStep cfg fs force t) (db, zeroStats)

/-- `file_path LIKE target || '%'`: SQLite's LIKE is ASCII-case-insensitive;
the target is assumed to contain no wildcard characters. -/
def likePrefixMatch (target path : String) : Bool :=
  listHasPrefix (strLower target).toList (strLower path).toList

def markMissing (r : FileRecord) : FileRecord := { r with status := "missing" }

/-- One iteration of the reconciliation loop: re-check existence on disk and,
when the path is gone, `UPDATE ... SET status = 'missing' WHERE file_path = ?`
and count the file as removed. -/
def reconcileStep (fs : List ScannedFile) (acc : DB × Nat) (mf : FileRecord) :
    DB × Nat :=
  if pathExists fs mf.file_path then acc
  else
    ({ acc.1 with rows := acc.1.rows.map (fun r =>
          if r.file_path == mf.file_path then markMissing r else r) },
      acc.2 + 1)

/-- The reconciliation pass (lines 217–227): snapshot the active records under
the target whose `last_seen` is more than an hour before `current_time`, then
mark each whose path no longer exists as `'missing'`, counting them. -/
def reconcile (fs : List ScannedFile) (target : String) (current_time : Int)
    (db : DB) : DB × Nat :=
  let missing_files := db.rows.filter (fun r =>
    likePrefixMatch target r.file_path
      && decide (r.last_seen < current_time - 3600)
      && r.status == "active")
  missing_files.foldl (reconcileStep fs) (db, 0)

/-- `run_audit`: abort on an invalid target before opening the store,
otherwise create/open the store, run the traversal phase, then reconcile. -/
def run_audit (cfg : Config) (target : String) (targetIsDir : Bool)
    (fs : List ScannedFile) (force_rehash : Bool) (current_time : Int)
    (store : Option DB) : Option DB × Stats :=
  if targetIsDir then
    let db := initDB store
    let scanned := runFiles cfg fs force_rehash current_time db
    let rec' := reconcile fs target current_time scanned.1
    (some rec'.1, { scanned.2 with removed_files := rec'.2 })
  else
    (store, zeroStats)

/-- One group of the duplicate report. -/
structure DupGroup where
  hash : String
  size_bytes : Nat
  files : List String
deriving Repr, DecidableEq

/-- The outcome of `find_duplicates`: the (possibly created) store plus the
report contents. -/
structure DupResult where
  store : Option DB
  groups : List DupGroup
  total_wasted_space : Nat
  duplicate_count : Nat
deriving Repr, DecidableEq

/-- Lookup in the known-duplicates mapping (`known_dupes_map`). -/
def lookupKnown (m : List (String × List String)) (h : String) :
    Option (List String) :=
  (m.find? (fun kv => kv.1 == h)).map (fun kv => kv.2)

/-- `d_hash in known_dupes_map and active_paths_set.issubset(...)`. -/
def suppressedByKnown (m : List (String × List String)) (h : String)
    (paths : List String) : Bool :=
  match lookupKnown m h with
  | some accepted => paths.all (fun p => accepted.contains p)
  | none => false

/-- Python's `set(...)` materialised as a list: keep the first occurrence of
each element. -/
def dedupAcc : List String → List String → List String
  | [], _ => []
  | x :: xs, seen =>
    if seen.contains x then dedupAcc xs seen else x :: dedupAcc xs (x :: seen)

def dedup (l : List String) : List String := dedupAcc l []

/-- The rows the per-hash loop of `find_duplicates` keeps as members of hash
`h`'s group: the inner `SELECT file_path, file_size ... WHERE sha256_hash = ?
AND status = 'active' AND file_path LIKE ?` followed by the `/Archive/`
exclusion (`active_files` in the source). -/
def nonArchivalMembers (db : DB) (target : String) (h : String) :
    List FileRecord :=
  (db.rows.filter (fun r =>
      r.sha256_hash == h && r.status == "active"
        && likePrefixMatch target r.file_path)).filter
    (fun r => !strContains r.file_path "/Archive/")

/-- The body of `find_duplicates`' per-hash loop: fetch the group's rows,
drop `/Archive/` members, skip the group when the known-duplicates entry
covers all its paths, and otherwise report it when more than one member
remains. -/
def dupStep (db : DB) (target : String) (m : List (String × List String))
    (acc : List DupGroup × Nat × Nat) (d_hash : String) :
    List DupGroup × Nat × Nat :=
  let active_files := nonArchivalMembers db target d_hash
  let active_paths := dedup (active_files.map (fun r => r.file_path))
  if suppressedByKnown m d_hash active_paths then acc
  else if active_files.length > 1 then
    let fsize := (active_files.head?.map (fun r => r.file_size)).getD 0
    (acc.1 ++ [⟨d_hash, fsize, active_paths⟩],
      acc.2.1 + fsize * (active_files.length - 1),
      acc.2.2 + (active_files.length - 1))
  else acc

/-- `find_duplicates`: open (creating if needed) the store, group the active
records under the target by hash keeping hashes with more than one such row,
then run the reporting loop.  No target-validity check is performed. -/
def find_duplicates (target : String) (m : List (String × List String))
    (store : Option DB) : DupResult :=
  let db := initDB store
  let relevant := db.rows.filter (fun r =>
    likePrefixMatch target r.file_path && r.status == "active")
  let dupHashes := (dedup (relevant.map (fun r => r.sha256_hash))).filter
    (fun h => (relevant.filter (fun r => r.sha256_hash == h)).length > 1)
  let res := dupHashes.foldl (dupStep db target m) ([], 0, 0)
  ⟨some db, res.1, res.2.1, res.2.2⟩

/-- The group `dupStep` reports for one hash, if any: `none` when the
known-duplicates entry covers all member paths or at most one member
remains. -/
def groupFor (db : DB) (target : String) (m : List (String × List String))
    (d_hash : String) : Option DupGroup :=
  let active_files := nonArchivalMembers db target d_hash
  let active_paths := dedup (active_files.map (fun r => r.file_path))
  if suppressedByKnown m d_hash active_paths then none
  else if active_files.length > 1 then
    some ⟨d_hash, (active_files.head?.map (fun r => r.file_size)).getD 0, active_paths⟩
  else none

/-- Store well-formedness: the SQL-level integrity facts used by the proofs
(unique `id`s below the autoincrement counter, unique paths). -/
def WF (db : DB) : Prop :=
  (db.rows.map (fun r => r.id)).Nodup
    ∧ (db.rows.map (fun r => r.file_path)).Nodup
    ∧ ∀ r ∈ db.rows, r.id < db.nextId

/-- The store holds a record at `f.path` carrying `f`'s current size and
mtime (what the fast path of the classifier tests). -/
def good (db : DB) (f : ScannedFile) : Prop :=
  ∃ r, findByPath db f.path = some r ∧ r.file_size = f.size ∧ r.mtime = f.mtime

/-! ### Concrete inputs used by witnesses and counterexamples -/

/-- The failing input for C1: a record whose file keeps size 4 and mtime 100
but whose content digest changed from "hashOld" to "hashNew". -/
def c1Rec : FileRecord := ⟨1, "/t/f.bin", "f.bin", 4, 100, "hashOld", 50, "active"⟩

def c1DB : DB := ⟨[c1Rec], 2⟩

def c1File : ScannedFile := ⟨"/t/f.bin", "f.bin", 4, 100, some "hashNew"⟩

/-- C2 inputs: one record at "/a/old.bin" whose file has vacated its path. -/
def c2Rec : FileRecord := ⟨1, "/a/old.bin", "old.bin", 4, 10, "HH", 5, "active"⟩

def c2DB : DB := ⟨[c2Rec], 2⟩

def c2File : ScannedFile := ⟨"/a/new.bin", "new.bin", 4, 20, some "HH"⟩

/-- C3 inputs: a record matching its on-disk file exactly. -/
def c3Rec : FileRecord := ⟨1, "/t/a.txt", "a.txt", 10, 100, "h1", 50, "active"⟩

def c3DB : DB := ⟨[c3Rec], 2⟩

def c3File : ScannedFile := ⟨"/t/a.txt", "a.txt", 10, 100, some "h1"⟩

/-- C10 inputs: one active record, one scanned file with changed content. -/
def c10DB : DB := ⟨[⟨1, "/w/x.dat", "x.dat", 7, 11, "d1", 5, "active"⟩], 2⟩

def c10File : ScannedFile := ⟨"/w/x.dat", "x.dat", 7, 11, some "d2"⟩

/-- C6/C7 inputs: records A and B share hash "H" and size 100, record C has
hash "H2" and size 50; all active, none archival. -/
def c6DB : DB :=
  ⟨[⟨1, "/d/A", "A", 100, 1, "H", 10, "active"⟩,
    ⟨2, "/d/B", "B", 100, 1, "H", 10, "active"⟩,
    ⟨3, "/d/C", "C", 50, 1, "H2", 10, "active"⟩], 4⟩

/-! ## Helper lemmas -/

/-- The guard of the bit-rot branch extends the (already false) guard of the
fast path by one more conjunct, so in the branch where the fast-path guard
failed it is false as well. -/
theorem bitrot_guard_false (a b c d : Bool) (h : ¬((a && b && c) = true)) :
    (a && b && c && d) = false := by
  cases hout : (a && b && c) with
  | true => exact absurd hout h
  | false => simp [hout]

/-- The classifier never returns `BitRot`: the branch is dead code. -/
theorem processFile_ne_bitrot (fs : List ScannedFile) (force : Bool) (t : Int)
    (db : DB) (f : ScannedFile) :
    (processFile fs force t db f).1 ≠ Classification.BitRot := by
  unfold processFile
  cases hfind : findByPath db f.path with
  | some r =>
    by_cases hfast : (!force && r.file_size == f.size && r.mtime == f.mtime) = true
    · simp [hfast]
    · have hbit : ∀ d : Bool,
          (!force && r.file_size == f.size && r.mtime == f.mtime && d) = false :=
        fun d => bitrot_guard_false _ _ _ d hfast
      cases hhash : calculate_sha256 f with
      | none => simp [hfast, hhash]
      | some new_hash => simp [hfast, hhash, hbit]
  | none =>
    cases hhash : calculate_sha256 f with
    | none => simp [hhash]
    | some new_hash =>
      cases hmv : (db.rows.filter (fun r =>
          r.sha256_hash == new_hash && r.file_size == f.size)).find?
          (fun c => !pathExists fs c.file_path) with
      | some c => simp [hhash, hmv]
      | none => simp [hhash, hmv]

/-- Every row of the store after one classification step either carries
status `'active'` or is an untouched row of the previous store (the dead
bit-rot branch being the only one that would write `'corrupted'`). -/
theorem status_after_processFile (fs : List ScannedFile) (force : Bool) (t : Int)
    (db : DB) (f : ScannedFile) :
    ∀ r' ∈ (processFile fs force t db f).2.rows,
      r'.status = "active" ∨ r' ∈ db.rows := by
  intro r' hr'
  unfold processFile at hr'
  cases hfind : findByPath db f.path with
  | some r =>
    rw [hfind] at hr'
    cases hfast : (!force && r.file_size == f.size && r.mtime == f.mtime) with
    | true =>
      simp only [hfast, if_true] at hr'
      simp only [updateById, List.mem_map] at hr'
      obtain ⟨x, hx, hxr⟩ := hr'
      by_cases hid : (x.id == r.id) = true
      · rw [if_pos hid] at hxr; left; rw [← hxr]
      · rw [if_neg hid] at hxr; right; rw [← hxr]; exact hx
    | false =>
      cases hhash : calculate_sha256 f with
      | none => simp only [hfast, Bool.false_eq_true, if_false, hhash] at hr'; right; exact hr'
      | some new_hash =>
        simp only [hfast, Bool.false_and, Bool.false_eq_true, if_false, hhash] at hr'
        simp only [updateById, List.mem_map] at hr'
        obtain ⟨x, hx, hxr⟩ := hr'
        by_cases hid : (x.id == r.id) = true
        · rw [if_pos hid] at hxr; left; rw [← hxr]
        · rw [if_neg hid] at hxr; right; rw [← hxr]; exact hx
  | none =>
    rw [hfind] at hr'
    cases hhash : calculate_sha256 f with
    | none => simp only [hhash] at hr'; right; exact hr'
    | some new_hash =>
      cases hmv : (db.rows.filter (fun r =>
          r.sha256_hash == new_hash && r.file_size == f.size)).find?
          (fun c => !pathExists fs c.file_path) with
      | some c =>
        simp only [hhash, hmv] at hr'
        simp only [updateById, List.mem_map] at hr'
        obtain ⟨x, hx, hxr⟩ := hr'
        by_cases hid : (x.id == c.id) = true
        · rw [if_pos hid] at hxr; left; rw [← hxr]
        · rw [if_neg hid] at hxr; right; rw [← hxr]; exact hx
      | none =>
        simp only [hhash, hmv] at hr'
        simp only [insertRecord, List.mem_append, List.mem_singleton] at hr'
        rcases hr' with hr' | hr'
        · right; exact hr'
        · left; rw [hr']

/-- One iteration of the scan loop never writes a status other than
`'active'` to a row it touches. -/
theorem status_after_scanStep (cfg : Config) (fs : List ScannedFile)
    (force : Bool) (t : Int) (acc : DB × Stats) (f : ScannedFile) :
    ∀ r' ∈ (scanStep cfg fs force t acc f).1.rows,
      r'.status = "active" ∨ r' ∈ acc.1.rows := by
  intro r' hr'
  unfold scanStep at hr'
  by_cases hex : should_exclude cfg f.path = true
  · rw [if_pos hex] at hr'; right; exact hr'
  · rw [if_neg hex] at hr'
    exact status_after_processFile fs force t acc.1 f r' hr'

/-- Across the whole traversal phase, every row is either `'active'` or an
untouched row of the initial store. -/
theorem status_after_scanList (cfg : Config) (fs : List ScannedFile)
    (force : Bool) (t : Int) :
    ∀ (files : List ScannedFile) (acc : DB × Stats),
      ∀ r' ∈ (files.foldl (scanStep cfg fs force t) acc).1.rows,
        r'.status = "active" ∨ r' ∈ acc.1.rows := by
  intro files
  induction files with
  | nil => intro acc r' h; right; exact h
  | cons f rest ih =>
    intro acc r' h
    rcases ih (scanStep cfg fs force t acc f) r' h with h2 | h2
    · left; exact h2
    · exact status_after_scanStep cfg fs force t acc f r' h2

/-- The reconciliation sweep only ever writes status `'missing'`. -/
theorem status_after_reconcile_aux (fs : List ScannedFile) :
    ∀ (L : List FileRecord) (acc : DB × Nat),
      ∀ r' ∈ (L.foldl (reconcileStep fs) acc).1.rows,
        r'.status = "missing" ∨ r' ∈ acc.1.rows := by
  intro L
  induction L with
  | nil => intro acc r' h; right; exact h
  | cons mf rest ih =>
    intro acc r' h
    rcases ih (reconcileStep fs acc mf) r' h with h2 | h2
    · left; exact h2
    · unfold reconcileStep at h2
      by_cases hex : pathExists fs mf.file_path = true
      · rw [if_pos hex] at h2; right; exact h2
      · rw [if_neg hex] at h2
        simp only [List.mem_map] at h2
        obtain ⟨x, hx, hxr⟩ := h2
        by_cases hp : (x.file_path == mf.file_path) = true
        · rw [if_pos hp] at hxr; left; rw [← hxr]; rfl
        · rw [if_neg hp] at hxr; right; rw [← hxr]; exact hx

theorem status_after_reconcile (fs : List ScannedFile) (target : String)
    (t : Int) (db : DB) :
    ∀ r' ∈ (reconcile fs target t db).1.rows,
      r'.status = "missing" ∨ r' ∈ db.rows := by
  intro r' h
  exact status_after_reconcile_aux fs _ (db, 0) r' h

/-- The scan loop's bit-rot counter never moves. -/
theorem bitrot_after_scanStep (cfg : Config) (fs : List ScannedFile)
    (force : Bool) (t : Int) (acc : DB × Stats) (f : ScannedFile) :
    (scanStep cfg fs force t acc f).2.bitrot_detected = acc.2.bitrot_detected := by
  unfold scanStep
  by_cases hex : should_exclude cfg f.path = true
  · rw [if_pos hex]
  · rw [if_neg hex]
    have hne := processFile_ne_bitrot fs force t acc.1 f
    cases hc : (processFile fs force t acc.1 f).1 with
    | BitRot => exact absurd hc hne
    | Unchanged => simp only [tally, hc]
    | New => simp only [tally, hc]
    | Modified => simp only [tally, hc]
    | Moved => simp only [tally, hc]
    | HashError => simp only [tally, hc]

theorem bitrot_after_scanList (cfg : Config) (fs : List ScannedFile)
    (force : Bool) (t : Int) :
    ∀ (files : List ScannedFile) (acc : DB × Stats),
      (files.foldl (scanStep cfg fs force t) acc).2.bitrot_detected
        = acc.2.bitrot_detected := by
  intro files
  induction files with
  | nil => intro acc; rfl
  | cons f rest ih =>
    intro acc
    rw [show (f :: rest).foldl (scanStep cfg fs force t) acc
        = rest.foldl (scanStep cfg fs force t) (scanStep cfg fs force t acc f) from rfl,
      ih, bitrot_after_scanStep]

theorem findByPath_none_iff (db : DB) (p : String) :
    findByPath db p = none ↔ ∀ x ∈ db.rows, x.file_path ≠ p := by
  unfold findByPath
  rw [List.find?_eq_none]
  constructor
  · intro hf x hx
    simpa using hf x hx
  · intro hf x hx
    simpa using hf x hx

/-- `find?` by path commutes with a path-preserving row update. -/
theorem find?_path_map (rows : List FileRecord) (u : FileRecord → FileRecord)
    (hu : ∀ r, (u r).file_path = r.file_path) (p : String) :
    (rows.map u).find? (fun r => r.file_path == p)
      = (rows.find? (fun r => r.file_path == p)).map u := by
  rw [List.find?_map]
  have he : ((fun r => r.file_path == p) ∘ u)
      = (fun r : FileRecord => r.file_path == p) := by
    funext r
    simp [Function.comp, hu]
  rw [he]

/-- Bool equality from an iff of their truths. -/
theorem bool_eq_of_iff {a b : Bool} (h : a = true ↔ b = true) : a = b := by
  cases a <;> cases b <;> simp_all

/-- A per-id update that changes neither ids nor paths preserves store
well-formedness. -/
theorem WF_updateById (db : DB) (i : Nat) (g : FileRecord → FileRecord)
    (hgid : ∀ r, (g r).id = r.id) (hgpath : ∀ r, (g r).file_path = r.file_path)
    (hwf : WF db) : WF (updateById db i g) := by
  obtain ⟨hids, hpaths, hlt⟩ := hwf
  unfold updateById WF
  refine ⟨?_, ?_, ?_⟩
  · rw [List.map_map]
    have he : ((fun r => r.id) ∘ fun r => if r.id == i then g r else r)
        = fun r : FileRecord => r.id := by
      funext r
      by_cases hri : (r.id == i) = true
      · simp [Function.comp, hri, hgid]
      · simp [Function.comp, hri]
    rw [he]
    exact hids
  · rw [List.map_map]
    have he : ((fun r => r.file_path) ∘ fun r => if r.id == i then g r else r)
        = fun r : FileRecord => r.file_path := by
      funext r
      by_cases hri : (r.id == i) = true
      · simp [Function.comp, hri, hgpath]
      · simp [Function.comp, hri]
    rw [he]
    exact hpaths
  · intro r' hr'
    simp only [List.mem_map] at hr'
    obtain ⟨x, hx, hxe⟩ := hr'
    rw [← hxe]
    by_cases hri : (x.id == i) = true
    · rw [if_pos hri]
      show (g x).id < db.nextId
      rw [hgid]
      exact hlt x hx
    · rw [if_neg hri]
      exact hlt x hx

/-- Retargeting one row (unique id) to a path held by no row keeps paths
pairwise distinct. -/
theorem nodup_paths_retarget (rows : List FileRecord) (cid : Nat) (newp : String)
    (hids : (rows.map (fun r => r.id)).Nodup)
    (hpaths : (rows.map (fun r => r.file_path)).Nodup)
    (hnew : ∀ r ∈ rows, r.file_path ≠ newp) :
    (rows.map (fun r => if r.id == cid then newp else r.file_path)).Nodup := by
  induction rows with
  | nil => simp
  | cons a l ih =>
    simp only [List.map_cons, List.nodup_cons] at hids hpaths ⊢
    obtain ⟨haid, hidt⟩ := hids
    obtain ⟨hap, hpt⟩ := hpaths
    have hnewa := hnew a (List.mem_cons_self a l)
    have hnewt : ∀ r ∈ l, r.file_path ≠ newp := fun r hr =>
      hnew r (List.mem_cons_of_mem a hr)
    refine ⟨?_, ih hidt hpt hnewt⟩
    intro hmem
    obtain ⟨x, hx, hxe⟩ := List.mem_map.mp hmem
    by_cases hxi : (x.id == cid) = true
    · rw [if_pos hxi] at hxe
      by_cases hai : (a.id == cid) = true
      · apply haid
        have hxa : x.id = a.id := by
          have h1 : x.id = cid := by simpa using hxi
          have h2 : a.id = cid := by simpa using hai
          rw [h1, h2]
        rw [← hxa]
        exact List.mem_map_of_mem _ hx
      · rw [if_neg hai] at hxe
        exact hnewa hxe.symm
    · rw [if_neg hxi] at hxe
      by_cases hai : (a.id == cid) = true
      · rw [if_pos hai] at hxe
        exact hnewt x hx hxe
      · rw [if_neg hai] at hxe
        apply hap
        rw [← hxe]
        exact List.mem_map_of_mem _ hx

/-- Retargeting one row to a vacant path preserves well-formedness. -/
theorem WF_updateById_retarget (db : DB) (i : Nat) (newp : String)
    (g : FileRecord → FileRecord)
    (hgid : ∀ r, (g r).id = r.id) (hgpath : ∀ r, (g r).file_path = newp)
    (hnew : ∀ x ∈ db.rows, x.file_path ≠ newp)
    (hwf : WF db) : WF (updateById db i g) := by
  obtain ⟨hids, hpaths, hlt⟩ := hwf
  unfold updateById WF
  refine ⟨?_, ?_, ?_⟩
  · rw [List.map_map]
    have he : ((fun r => r.id) ∘ fun r => if r.id == i then g r else r)
        = fun r : FileRecord => r.id := by
      funext r
      by_cases hri : (r.id == i) = true
      · simp [Function.comp, hri, hgid]
      · simp [Function.comp, hri]
    rw [he]
    exact hids
  · rw [List.map_map]
    have he : ((fun r => r.file_path) ∘ fun r => if r.id == i then g r else r)
        = fun r : FileRecord => if r.id == i then newp else r.file_path := by
      funext r
      by_cases hri : (r.id == i) = true
      · simp [Function.comp, hri, hgpath]
      · simp [Function.comp, hri]
    rw [he]
    exact nodup_paths_retarget db.rows i newp hids hpaths hnew
  · intro r' hr'
    simp only [List.mem_map] at hr'
    obtain ⟨x, hx, hxe⟩ := hr'
    rw [← hxe]
    by_cases hri : (x.id == i) = true
    · rw [if_pos hri]
      show (g x).id < db.nextId
      rw [hgid]
      exact hlt x hx
    · rw [if_neg hri]
      exact hlt x hx

/-- Inserting a fresh row at a vacant path preserves well-formedness. -/
theorem WF_insertRecord (db : DB) (p nm : String) (sz : Nat) (mt : Int)
    (h : String) (t : Int)
    (hnew : ∀ x ∈ db.rows, x.file_path ≠ p)
    (hwf : WF db) : WF (insertRecord db p nm sz mt h t) := by
  obtain ⟨hids, hpaths, hlt⟩ := hwf
  unfold insertRecord WF
  refine ⟨?_, ?_, ?_⟩
  · simp only [List.map_append, List.map_cons, List.map_nil]
    rw [List.nodup_append]
    refine ⟨hids, List.nodup_singleton _, ?_⟩
    intro a ha hb
    simp only [List.mem_singleton] at hb
    subst hb
    obtain ⟨x, hx, hxe⟩ := List.mem_map.mp ha
    have := hlt x hx
    rw [hxe] at this
    exact absurd this (lt_irrefl _)
  · simp only [List.map_append, List.map_cons, List.map_nil]
    rw [List.nodup_append]
    refine ⟨hpaths, List.nodup_singleton _, ?_⟩
    intro a ha hb
    simp only [List.mem_singleton] at hb
    subst hb
    obtain ⟨x, hx, hxe⟩ := List.mem_map.mp ha
    exact hnew x hx hxe
  · intro r' hr'
    simp only [List.mem_append, List.mem_singleton] at hr'
    rcases hr' with hr' | hr'
    · exact Nat.lt_succ_of_lt (hlt r' hr')
    · rw [hr']
      exact Nat.lt_succ_self _

/-- One classification step preserves store well-formedness. -/
theorem WF_processFile (fs : List ScannedFile) (force : Bool) (t : Int)
    (db : DB) (f : ScannedFile) (hwf : WF db) :
    WF (processFile fs force t db f).2 := by
  unfold processFile
  cases hfind : findByPath db f.path with
  | some r =>
    cases hfast : (!force && r.file_size == f.size && r.mtime == f.mtime) with
    | true =>
      simp only [hfast, if_true]
      exact WF_updateById db r.id _ (fun x => rfl) (fun x => rfl) hwf
    | false =>
      cases hhash : calculate_sha256 f with
      | none => simp only [hfast, Bool.false_eq_true, if_false, hhash]; exact hwf
      | some new_hash =>
        simp only [hfast, Bool.false_and, Bool.false_eq_true, if_false, hhash]
        exact WF_updateById db r.id _ (fun x => rfl) (fun x => rfl) hwf
  | none =>
    have hnew : ∀ x ∈ db.rows, x.file_path ≠ f.path :=
      (findByPath_none_iff db f.path).mp hfind
    cases hhash : calculate_sha256 f with
    | none => simp only [hhash]; exact hwf
    | some new_hash =>
      cases hmv : (db.rows.filter (fun r =>
          r.sha256_hash == new_hash && r.file_size == f.size)).find?
          (fun c => !pathExists fs c.file_path) with
      | some c =>
        simp only [hhash, hmv]
        exact WF_updateById_retarget db c.id f.path _ (fun x => rfl) (fun x => rfl)
          hnew hwf
      | none =>
        simp only [hhash, hmv]
        exact WF_insertRecord db f.path f.name f.size f.mtime new_hash t hnew hwf

theorem WF_scanStep (cfg : Config) (fs : List ScannedFile) (force : Bool)
    (t : Int) (acc : DB × Stats) (f : ScannedFile) (hwf : WF acc.1) :
    WF (scanStep cfg fs force t acc f).1 := by
  unfold scanStep
  by_cases hex : should_exclude cfg f.path = true
  · rw [if_pos hex]; exact hwf
  · rw [if_neg hex]
    exact WF_processFile fs force t acc.1 f hwf

theorem WF_scanFold (cfg : Config) (fs : List ScannedFile) (force : Bool)
    (t : Int) :
    ∀ (files : List ScannedFile) (acc : DB × Stats), WF acc.1 →
      WF ((files.foldl (scanStep cfg fs force t) acc)).1 := by
  intro files
  induction files with
  | nil => intro acc hwf; exact hwf
  | cons f rest ih =>
    intro acc hwf
    exact ih (scanStep cfg fs force t acc f) (WF_scanStep cfg fs force t acc f hwf)

theorem WF_initDB (store : Option DB) (hwf : ∀ d, store = some d → WF d) :
    WF (initDB store) := by
  cases store with
  | none =>
    refine ⟨List.nodup_nil, List.nodup_nil, ?_⟩
    intro r hr
    cases hr
  | some d => exact hwf d rfl

/-- The reconciliation fold, characterised as one map over the snapshot rows:
a row is marked missing exactly when some snapshot record with the same path
fails the on-disk existence re-check. -/
theorem reconcile_fold_rows (fs : List ScannedFile) :
    ∀ (L : List FileRecord) (acc : DB × Nat),
      (L.foldl (reconcileStep fs) acc).1.rows
        = acc.1.rows.map (fun r =>
            if L.any (fun mf => !pathExists fs mf.file_path
                && (mf.file_path == r.file_path)) then markMissing r else r)
      ∧ (L.foldl (reconcileStep fs) acc).1.nextId = acc.1.nextId := by
  intro L
  induction L with
  | nil =>
    intro acc
    refine ⟨?_, rfl⟩
    simp
  | cons mf rest ih =>
    intro acc
    obtain ⟨ihr, ihn⟩ := ih (reconcileStep fs acc mf)
    have hfold : (mf :: rest).foldl (reconcileStep fs) acc
        = rest.foldl (reconcileStep fs) (reconcileStep fs acc mf) := rfl
    by_cases hex : pathExists fs mf.file_path = true
    · have hstep : reconcileStep fs acc mf = acc := by
        unfold reconcileStep
        rw [if_pos hex]
      rw [hfold, hstep]
      rw [hstep] at ihr ihn
      refine ⟨?_, ihn⟩
      rw [ihr]
      apply List.map_congr_left
      intro r _
      have hhead : ((mf :: rest).any (fun m => !pathExists fs m.file_path
            && (m.file_path == r.file_path)))
          = (rest.any (fun m => !pathExists fs m.file_path
            && (m.file_path == r.file_path))) := by
        simp [List.any_cons, hex]
      rw [hhead]
    · have hstep : reconcileStep fs acc mf
          = ({ acc.1 with rows := acc.1.rows.map (fun r =>
                if r.file_path == mf.file_path then markMissing r else r) },
              acc.2 + 1) := by
        unfold reconcileStep
        rw [if_neg hex]
      rw [hfold, hstep]
      rw [hstep] at ihr ihn
      refine ⟨?_, ihn.trans rfl⟩
      rw [ihr]
      show (acc.1.rows.map _).map _ = _
      rw [List.map_map]
      apply List.map_congr_left
      intro r _
      have hexf : pathExists fs mf.file_path = false := by
        cases hpe : pathExists fs mf.file_path
        · rfl
        · exact absurd hpe hex
      by_cases hp : (r.file_path == mf.file_path) = true
      · have hpe : (mf.file_path == r.file_path) = true := by
          have : r.file_path = mf.file_path := by simpa using hp
          simp [this]
        simp only [Function.comp, hp, if_true]
        have hmarkpath : (markMissing r).file_path = r.file_path := rfl
        have hmm : markMissing (markMissing r) = markMissing r := rfl
        simp only [List.any_cons, hexf, hpe, Bool.not_false, Bool.and_true,
          Bool.true_or, if_true]
        by_cases hrest : (rest.any (fun m => !pathExists fs m.file_path
            && (m.file_path == (markMissing r).file_path))) = true
        · rw [if_pos hrest, hmm]
        · rw [if_neg hrest]
      · have hpe : (mf.file_path == r.file_path) = false := by
          have hne : r.file_path ≠ mf.file_path := by simpa using hp
          have hne' : mf.file_path ≠ r.file_path := fun hq => hne hq.symm
          simp [hne']
        simp only [Function.comp, hp, Bool.false_eq_true, if_false]
        simp only [List.any_cons, hexf, hpe, Bool.not_false, Bool.and_false,
          Bool.false_or]

/-- Characterisation of the full reconciliation pass over a store with
pairwise-distinct paths: a row's status becomes `'missing'` exactly when it
is active, lies under the target, has a stale `last_seen` and its path no
longer exists; all other rows are returned verbatim. -/
theorem reconcile_rows_char (fs : List ScannedFile) (target : String) (t : Int)
    (db : DB) (hpaths : (db.rows.map (fun r => r.file_path)).Nodup) :
    (reconcile fs target t db).1.rows
      = db.rows.map (fun r =>
          if likePrefixMatch target r.file_path && decide (r.last_seen < t - 3600)
              && (r.status == "active") && !pathExists fs r.file_path
          then markMissing r else r) := by
  have hrec : reconcile fs target t db
      = (db.rows.filter (fun r =>
          likePrefixMatch target r.file_path && decide (r.last_seen < t - 3600)
            && (r.status == "active"))).foldl (reconcileStep fs) (db, 0) := rfl
  rw [hrec]
  obtain ⟨hr, -⟩ := reconcile_fold_rows fs (db.rows.filter (fun r =>
    likePrefixMatch target r.file_path && decide (r.last_seen < t - 3600)
      && (r.status == "active"))) (db, 0)
  rw [hr]
  apply List.map_congr_left
  intro r hrmem
  have hcond : ((db.rows.filter (fun x =>
        likePrefixMatch target x.file_path && decide (x.last_seen < t - 3600)
          && (x.status == "active"))).any (fun mf =>
        !pathExists fs mf.file_path && (mf.file_path == r.file_path)))
      = (likePrefixMatch target r.file_path && decide (r.last_seen < t - 3600)
          && (r.status == "active") && !pathExists fs r.file_path) := by
    apply bool_eq_of_iff
    constructor
    · intro hany
      obtain ⟨mf, hmf, hg⟩ := List.any_eq_true.mp hany
      obtain ⟨hmfmem, hmfpred⟩ := List.mem_filter.mp hmf
      rw [Bool.and_eq_true] at hg
      obtain ⟨hnex, hpe⟩ := hg
      have hmfr : mf = r :=
        List.inj_on_of_nodup_map hpaths hmfmem hrmem (by simpa using hpe)
      subst hmfr
      rw [Bool.and_eq_true]
      exact ⟨hmfpred, hnex⟩
    · intro hc
      rw [Bool.and_eq_true] at hc
      obtain ⟨hpred, hnex⟩ := hc
      apply List.any_eq_true.mpr
      refine ⟨r, List.mem_filter.mpr ⟨hrmem, hpred⟩, ?_⟩
      rw [Bool.and_eq_true]
      exact ⟨hnex, by simp⟩
  rw [hcond]

/-! ## Claim C5 — the reconciliation pass -/

/-- C5: a full audit run over a valid target is the traversal phase followed
by the reconciliation pass (first conjunct); the reconciliation pass sets
status `'missing'` for exactly those rows that are active, lie under the
target, have `last_seen` more than the one-hour grace window before the run's
start time and whose path no longer exists on disk, all other rows keeping
their status and every field (second conjunct); and the traversal phase
itself never produces a `'missing'` row that was not already in the initial
store (third conjunct — never mid-traversal). -/
theorem C5_reconciliation_after_traversal (cfg : Config) (target : String)
    (fs : List ScannedFile) (force : Bool) (t : Int) (store : Option DB)
    (hwf : ∀ d, store = some d → WF d) :
    run_audit cfg target true fs force t store
        = (some (reconcile fs target t (runFiles cfg fs force t (initDB store)).1).1,
            { (runFiles cfg fs force t (initDB store)).2 with
                removed_files :=
                  (reconcile fs target t (runFiles cfg fs force t (initDB store)).1).2 })
      ∧ (reconcile fs target t (runFiles cfg fs force t (initDB store)).1).1.rows
          = (runFiles cfg fs force t (initDB store)).1.rows.map (fun r =>
              if likePrefixMatch target r.file_path && decide (r.last_seen < t - 3600)
                  && (r.status == "active") && !pathExists fs r.file_path
              then markMissing r else r)
      ∧ (∀ r ∈ (runFiles cfg fs force t (initDB store)).1.rows,
            r.status = "missing" → r ∈ (initDB store).rows) := by
  refine ⟨rfl, ?_, ?_⟩
  · apply reconcile_rows_char
    exact (WF_scanFold cfg fs force t fs (initDB store, zeroStats)
      (WF_initDB store hwf)).2.1
  · intro r hr hmiss
    rcases status_after_scanList cfg fs force t fs (initDB store, zeroStats) r hr with
      hs | hs
    · rw [hs] at hmiss
      exact absurd hmiss (by decide)
    · exact hs

/-- Witness for C5: a store holding a stale active record under the target
whose path has vanished, plus one freshly scanned file. -/
theorem C5_reconciliation_after_traversal_witness :
    run_audit ⟨[], []⟩ "/r/" true [⟨"/r/b.txt", "b.txt", 2, 3, some "k2"⟩] false 9999
        (some ⟨[⟨1, "/r/a.txt", "a.txt", 1, 2, "k1", 10, "active"⟩], 2⟩)
        = (some (reconcile [⟨"/r/b.txt", "b.txt", 2, 3, some "k2"⟩] "/r/" 9999
              (runFiles ⟨[], []⟩ [⟨"/r/b.txt", "b.txt", 2, 3, some "k2"⟩] false 9999
                (initDB (some ⟨[⟨1, "/r/a.txt", "a.txt", 1, 2, "k1", 10, "active"⟩], 2⟩))).1).1,
            { (runFiles ⟨[], []⟩ [⟨"/r/b.txt", "b.txt", 2, 3, some "k2"⟩] false 9999
                (initDB (some ⟨[⟨1, "/r/a.txt", "a.txt", 1, 2, "k1", 10, "active"⟩], 2⟩))).2 with
                removed_files :=
                  (reconcile [⟨"/r/b.txt", "b.txt", 2, 3, some "k2"⟩] "/r/" 9999
                    (runFiles ⟨[], []⟩ [⟨"/r/b.txt", "b.txt", 2, 3, some "k2"⟩] false 9999
                      (initDB (some ⟨[⟨1, "/r/a.txt", "a.txt", 1, 2, "k1", 10, "active"⟩], 2⟩))).1).2 })
      ∧ (reconcile [⟨"/r/b.txt", "b.txt", 2, 3, some "k2"⟩] "/r/" 9999
            (runFiles ⟨[], []⟩ [⟨"/r/b.txt", "b.txt", 2, 3, some "k2"⟩] false 9999
              (initDB (some ⟨[⟨1, "/r/a.txt", "a.txt", 1, 2, "k1", 10, "active"⟩], 2⟩))).1).1.rows
          = (runFiles ⟨[], []⟩ [⟨"/r/b.txt", "b.txt", 2, 3, some "k2"⟩] false 9999
              (initDB (some ⟨[⟨1, "/r/a.txt", "a.txt", 1, 2, "k1", 10, "active"⟩], 2⟩))).1.rows.map
              (fun r =>
                if likePrefixMatch "/r/" r.file_path && decide (r.last_seen < 9999 - 3600)
                    && (r.status == "active")
                    && !pathExists [⟨"/r/b.txt", "b.txt", 2, 3, some "k2"⟩] r.file_path
                then markMissing r else r)
      ∧ (∀ r ∈ (runFiles ⟨[], []⟩ [⟨"/r/b.txt", "b.txt", 2, 3, some "k2"⟩] false 9999
              (initDB (some ⟨[⟨1, "/r/a.txt", "a.txt", 1, 2, "k1", 10, "active"⟩], 2⟩))).1.rows,
            r.status = "missing" →
              r ∈ (initDB (some (⟨[⟨1, "/r/a.txt", "a.txt", 1, 2, "k1", 10, "active"⟩], 2⟩ : DB))).rows) :=
  C5_reconciliation_after_traversal ⟨[], []⟩ "/r/" [⟨"/r/b.txt", "b.txt", 2, 3, some "k2"⟩]
    false 9999 (some ⟨[⟨1, "/r/a.txt", "a.txt", 1, 2, "k1", 10, "active"⟩], 2⟩)
    (by intro d hd; injection hd with hq; subst hq; refine ⟨?_, ?_, ?_⟩ <;> decide)

/-! ## Claim C10 — the no-corrupted invariant -/

/-- C10: starting from any store in which no record is `'corrupted'`, a full
audit run — any target, any filesystem, either value of the force flag —
leaves a store in which no record is `'corrupted'`, and its bit-rot counter
is zero: the guarded bit-rot branch is unreachable. -/
theorem C10_no_corrupted_preserved (cfg : Config) (target : String)
    (targetIsDir : Bool) (fs : List ScannedFile) (force : Bool) (t : Int)
    (store : Option DB)
    (h : ∀ d, store = some d → ∀ r ∈ d.rows, r.status ≠ "corrupted") :
    (∀ d, (run_audit cfg target targetIsDir fs force t store).1 = some d →
        ∀ r ∈ d.rows, r.status ≠ "corrupted")
      ∧ (run_audit cfg target targetIsDir fs force t store).2.bitrot_detected = 0 := by
  have hinit : ∀ r ∈ (initDB store).rows, r.status ≠ "corrupted" := by
    cases store with
    | none => intro r hr; cases hr
    | some d => exact h d rfl
  unfold run_audit
  by_cases htid : targetIsDir = true
  · rw [if_pos htid]
    constructor
    · intro d hd r hr
      simp only at hd
      cases hd
      rcases status_after_reconcile fs target t _ r hr with hs | hs
      · rw [hs]; decide
      · rcases status_after_scanList cfg fs force t fs (initDB store, zeroStats) r hs with
          hs2 | hs2
        · rw [hs2]; decide
        · exact hinit r hs2
    · simpa using bitrot_after_scanList cfg fs force t fs (initDB store, zeroStats)
  · rw [if_neg htid]
    constructor
    · intro d hd r hr
      simp only at hd
      cases hd
      exact h _ rfl r hr
    · rfl

/-- Witness for C10 on a concrete run: one active record, one scanned file
with changed content, force flag set. -/
theorem C10_no_corrupted_preserved_witness :
    (∀ d, (run_audit ⟨[], []⟩ "/w/" true [c10File] true 100 (some c10DB)).1 = some d →
        ∀ r ∈ d.rows, r.status ≠ "corrupted")
      ∧ (run_audit ⟨[], []⟩ "/w/" true [c10File] true 100 (some c10DB)).2.bitrot_detected
          = 0 :=
  C10_no_corrupted_preserved ⟨[], []⟩ "/w/" true [c10File] true 100 (some c10DB)
    (by intro d hd; injection hd with h; subst h; decide)

/-! ## Claim C2 — move detection vs. new insertion -/

/-- Exactly one row satisfies a predicate equivalent to "has `c`'s id", when
ids are unique and `c` is a row. -/
theorem filter_length_one_by_id (rows : List FileRecord) (c : FileRecord)
    (hnd : (rows.map (fun r => r.id)).Nodup) (hc : c ∈ rows)
    (p : FileRecord → Bool) (hp : ∀ x ∈ rows, p x = (x.id == c.id)) :
    (rows.filter p).length = 1 := by
  rw [← List.countP_eq_length_filter]
  rw [List.countP_congr (fun x hx => by rw [hp x hx])]
  have hcnt : List.countP (fun x => x.id == c.id) rows
      = List.count c.id (rows.map (fun r => r.id)) := by
    rw [List.count_eq_countP, List.countP_map]
    rfl
  rw [hcnt]
  exact List.count_eq_one_of_mem hnd (List.mem_map_of_mem _ hc)

/-- C2: for a scanned file whose path has no record, once hashing succeeds:
if the first (hash, size) candidate whose recorded path is vacant exists, the
file is classified Moved and that candidate row is retargeted in place —
path, name, mtime, `last_seen` updated and `status = 'active'` — leaving
exactly one row at the new path and none at the vacated one; if instead every
candidate's recorded path still exists on disk (including the
byte-identical-copy case) or there is no candidate, the file is classified
New and a fresh row is inserted.  Both hold for either value of the force
flag. -/
theorem C2_moved_or_new (fs : List ScannedFile) (force : Bool) (t : Int)
    (db : DB) (f : ScannedFile) (h : String)
    (hwf : WF db)
    (hno : findByPath db f.path = none)
    (hh : calculate_sha256 f = some h) :
    (∀ c, (db.rows.filter (fun r => r.sha256_hash == h && r.file_size == f.size)).find?
          (fun c => !pathExists fs c.file_path) = some c →
        (processFile fs force t db f).1 = Classification.Moved
        ∧ (processFile fs force t db f).2.rows
            = db.rows.map (fun x =>
                if x.id == c.id then
                  { x with file_path := f.path, file_name := f.name, mtime := f.mtime,
                           last_seen := t, status := "active" }
                else x)
        ∧ ((processFile fs force t db f).2.rows.filter
              (fun x => x.file_path == f.path)).length = 1
        ∧ ((processFile fs force t db f).2.rows.filter
              (fun x => x.file_path == c.file_path)).length = 0
        ∧ c.sha256_hash = h ∧ c.file_size = f.size
        ∧ pathExists fs c.file_path = false)
    ∧ ((∀ c ∈ db.rows.filter (fun r => r.sha256_hash == h && r.file_size == f.size),
          pathExists fs c.file_path = true) →
        (processFile fs force t db f).1 = Classification.New
        ∧ (processFile fs force t db f).2.rows
            = db.rows ++ [⟨db.nextId, f.path, f.name, f.size, f.mtime, h, t, "active"⟩]
        ∧ ((processFile fs force t db f).2.rows.filter
              (fun x => x.file_path == f.path)).length = 1) := by
  obtain ⟨hids, hpaths, -⟩ := hwf
  have hnp : ∀ x ∈ db.rows, x.file_path ≠ f.path := (findByPath_none_iff db f.path).mp hno
  constructor
  · intro c hc
    have hcmem' := List.mem_of_find?_eq_some hc
    have hcpred := List.find?_some hc
    have hcex : pathExists fs c.file_path = false := by
      cases hpe : pathExists fs c.file_path
      · rfl
      · rw [hpe] at hcpred; cases hcpred
    rw [List.mem_filter] at hcmem'
    obtain ⟨hcmem, hcfil⟩ := hcmem'
    rw [Bool.and_eq_true] at hcfil
    have hchash : c.sha256_hash = h := by simpa using hcfil.1
    have hcsize : c.file_size = f.size := by simpa using hcfil.2
    have hres : processFile fs force t db f
        = (Classification.Moved,
            updateById db c.id (fun x =>
              { x with file_path := f.path, file_name := f.name, mtime := f.mtime,
                       last_seen := t, status := "active" })) := by
      unfold processFile
      rw [hno, hh]
      simp only [hc]
    refine ⟨by rw [hres], by rw [hres]; rfl, ?_, ?_, hchash, hcsize, hcex⟩
    · rw [hres]
      show ((db.rows.map _).filter _).length = 1
      rw [List.filter_map, List.length_map]
      apply filter_length_one_by_id db.rows c hids hcmem
      intro x hx
      by_cases hid : (x.id == c.id) = true
      · simp [Function.comp, hid]
      · have hxne := hnp x hx
        simp [Function.comp, hid, hxne]
    · rw [hres]
      show ((db.rows.map _).filter _).length = 0
      rw [List.filter_map, List.length_map, List.length_eq_zero, List.filter_eq_nil_iff]
      intro x hx
      by_cases hid : (x.id == c.id) = true
      · have hcf : c.file_path ≠ f.path := hnp c hcmem
        simp only [Function.comp, hid, if_true]
        simp only [beq_iff_eq]
        exact fun heq => hcf heq.symm
      · have hxc : x ≠ c := by
          intro hxx
          rw [hxx] at hid
          simp at hid
        have hxcp : x.file_path ≠ c.file_path := fun heq =>
          hxc (List.inj_on_of_nodup_map hpaths hx hcmem heq)
        simp only [Function.comp, hid, if_false]
        simpa using hxcp
  · intro hall
    have hnone : (db.rows.filter
          (fun r => r.sha256_hash == h && r.file_size == f.size)).find?
        (fun c => !pathExists fs c.file_path) = none := by
      rw [List.find?_eq_none]
      intro x hx
      rw [hall x hx]
      simp
    have hres : processFile fs force t db f
        = (Classification.New, insertRecord db f.path f.name f.size f.mtime h t) := by
      unfold processFile
      rw [hno, hh]
      simp only [hnone]
    refine ⟨by rw [hres], by rw [hres]; rfl, ?_⟩
    rw [hres]
    show ((db.rows ++ [_]).filter _).length = 1
    rw [List.filter_append]
    have h1 : db.rows.filter (fun x => x.file_path == f.path) = [] := by
      rw [List.filter_eq_nil_iff]
      intro x hx
      simpa using hnp x hx
    rw [h1]
    simp

/-- Witness for C2: a store with one record "/a/old.bin" whose file vacated
(the move case is exercised via the first conjunct, the New case holds
vacuously here but is stated in full). -/
theorem C2_moved_or_new_witness :
    (∀ c, (c2DB.rows.filter (fun r => r.sha256_hash == "HH" && r.file_size == c2File.size)).find?
          (fun c => !pathExists [c2File] c.file_path) = some c →
        (processFile [c2File] false 100 c2DB c2File).1 = Classification.Moved
        ∧ (processFile [c2File] false 100 c2DB c2File).2.rows
            = c2DB.rows.map (fun x =>
                if x.id == c.id then
                  { x with file_path := c2File.path, file_name := c2File.name,
                           mtime := c2File.mtime, last_seen := 100, status := "active" }
                else x)
        ∧ ((processFile [c2File] false 100 c2DB c2File).2.rows.filter
              (fun x => x.file_path == c2File.path)).length = 1
        ∧ ((processFile [c2File] false 100 c2DB c2File).2.rows.filter
              (fun x => x.file_path == c.file_path)).length = 0
        ∧ c.sha256_hash = "HH" ∧ c.file_size = c2File.size
        ∧ pathExists [c2File] c.file_path = false)
    ∧ ((∀ c ∈ c2DB.rows.filter
            (fun r => r.sha256_hash == "HH" && r.file_size == c2File.size),
          pathExists [c2File] c.file_path = true) →
        (processFile [c2File] false 100 c2DB c2File).1 = Classification.New
        ∧ (processFile [c2File] false 100 c2DB c2File).2.rows
            = c2DB.rows ++ [⟨c2DB.nextId, c2File.path, c2File.name, c2File.size,
                c2File.mtime, "HH", 100, "active"⟩]
        ∧ ((processFile [c2File] false 100 c2DB c2File).2.rows.filter
              (fun x => x.file_path == c2File.path)).length = 1) :=
  C2_moved_or_new [c2File] false 100 c2DB c2File "HH"
    (by refine ⟨?_, ?_, ?_⟩ <;> decide) rfl rfl

/-! ## Claim C1 — forced re-hash and bit-rot (code bug)

The spec requires: under a forced re-hash, a file whose size and mtime equal
the stored record's but whose recomputed hash differs must be classified
BitRot, with `status = 'corrupted'` and the bit-rot counter incremented.  The
code's guard (`auditor.py:172`) additionally demands `not force_rehash`, which
is false on the forced path and contradicts the enclosing `else` on the
unforced path, so the branch can never run; such a file is classified
Modified with `status = 'active'` instead.  This contradicts the module's own
docstring ("4. Bit-rot (mtime/size unchanged, but hash changed)") and the
bit-rot alerting machinery, which can never fire. -/

/-- C1 (code_bug evaluation): at the failing input — forced re-hash, size and
mtime equal to the record, hash changed — the code classifies the file
Modified and stores `status = 'active'`, not BitRot/`'corrupted'`; one full
run over just this file reports zero bit-rot detections. -/
theorem C1_forced_rehash_bitrot_is_dead :
    (processFile [c1File] true 200 c1DB c1File).1 = Classification.Modified
      ∧ (processFile [c1File] true 200 c1DB c1File).2.rows
          = [⟨1, "/t/f.bin", "f.bin", 4, 100, "hashNew", 200, "active"⟩]
      ∧ (run_audit ⟨[], []⟩ "/t/" true [c1File] true 200 (some c1DB)).2.bitrot_detected = 0 :=
  ⟨rfl, rfl, rfl⟩

/-! ## Claim C3 — the unchanged fast path -/

/-- C3: with no forced re-hash and matching size and mtime, the file is
classified Unchanged; the only mutation is setting `last_seen` and
`status = 'active'` on the record with the matched id; the record's path,
size, mtime and hash columns are untouched and the autoincrement counter does
not move; and the result is identical for any scanned file with the same
path, size and mtime — in particular the file's content digest is never
consulted. -/
theorem C3_unchanged_fast_path (fs : List ScannedFile) (t : Int) (db : DB)
    (f : ScannedFile) (r : FileRecord)
    (hfind : findByPath db f.path = some r)
    (hsize : r.file_size = f.size) (hmtime : r.mtime = f.mtime) :
    (processFile fs false t db f).1 = Classification.Unchanged
      ∧ (processFile fs false t db f).2.rows
          = db.rows.map (fun x =>
              if x.id == r.id then { x with last_seen := t, status := "active" } else x)
      ∧ (processFile fs false t db f).2.nextId = db.nextId
      ∧ (processFile fs false t db f).2.rows.map
            (fun x => (x.file_path, x.file_size, x.mtime, x.sha256_hash))
          = db.rows.map (fun x => (x.file_path, x.file_size, x.mtime, x.sha256_hash))
      ∧ ∀ g : ScannedFile, g.path = f.path → g.size = f.size → g.mtime = f.mtime →
          processFile fs false t db g = processFile fs false t db f := by
  have hcond : (!false && r.file_size == f.size && r.mtime == f.mtime) = true := by
    simp [hsize, hmtime]
  have hres : processFile fs false t db f =
      (Classification.Unchanged,
        updateById db r.id (fun x => { x with last_seen := t, status := "active" })) := by
    unfold processFile
    simp only [hfind]
    rw [if_pos hcond]
  refine ⟨by rw [hres], by rw [hres]; rfl, by rw [hres]; rfl, ?_, ?_⟩
  · rw [hres]
    show (db.rows.map _).map _ = _
    rw [List.map_map]
    apply List.map_congr_left
    intro a _
    by_cases ha : a.id = r.id <;> simp [ha]
  · intro g hp hs hm
    have hcondg : (!false && r.file_size == g.size && r.mtime == g.mtime) = true := by
      simp [hsize, hmtime, hs, hm]
    have : processFile fs false t db g =
        (Classification.Unchanged,
          updateById db r.id (fun x => { x with last_seen := t, status := "active" })) := by
      unfold processFile
      rw [hp]
      simp only [hfind]
      rw [if_pos hcondg]
    rw [this, hres]

/-- Witness for C3 on a concrete store and file. -/
theorem C3_unchanged_fast_path_witness :
    (processFile [] false 999 c3DB c3File).1 = Classification.Unchanged
      ∧ (processFile [] false 999 c3DB c3File).2.rows
          = c3DB.rows.map (fun x =>
              if x.id == c3Rec.id then { x with last_seen := 999, status := "active" } else x)
      ∧ (processFile [] false 999 c3DB c3File).2.nextId = c3DB.nextId
      ∧ (processFile [] false 999 c3DB c3File).2.rows.map
            (fun x => (x.file_path, x.file_size, x.mtime, x.sha256_hash))
          = c3DB.rows.map (fun x => (x.file_path, x.file_size, x.mtime, x.sha256_hash))
      ∧ ∀ g : ScannedFile, g.path = c3File.path → g.size = c3File.size →
          g.mtime = c3File.mtime →
          processFile [] false 999 c3DB g = processFile [] false 999 c3DB c3File :=
  C3_unchanged_fast_path [] 999 c3DB c3File c3Rec rfl rfl rfl

/-! ## Claim C8 — invalid target (corrected)

`run_audit` does abort before opening the store when the target is not a
directory.  `find_duplicates`, however, performs no target check at all: it
unconditionally calls `init_db()`, which creates the database file and the
`file_hashes` table when absent, and then proceeds; it merely never inserts,
updates or deletes any record. -/

/-- C8 counterexample: starting with no store file at all, running duplicate
analysis (the target being irrelevant — the code never tests it, so in
particular it may be missing or not a directory) does not abort and creates
the store: the resulting store is the freshly created empty table, not the
original absent store. -/
theorem C8_counterexample :
    (find_duplicates "/no/such/dir" [] none).store = some emptyDB
      ∧ (find_duplicates "/no/such/dir" [] none).store ≠ (none : Option DB)
      ∧ (find_duplicates "/no/such/dir" [] none).groups = [] :=
  ⟨rfl, by simp [find_duplicates], rfl⟩

/-- C8 (amended): the full audit aborts on an invalid target with the store
untouched (no file or table created, no record changed) and zero counters;
duplicate analysis performs no validity check — it always opens the store,
creating the file and table when absent, but preserves the records of an
existing store verbatim and never inserts, updates or deletes any record. -/
theorem C8_amended_abort_behaviour (cfg : Config) (target : String)
    (fs : List ScannedFile) (force : Bool) (t : Int) (store : Option DB)
    (m : List (String × List String)) :
    run_audit cfg target false fs force t store = (store, zeroStats)
      ∧ (find_duplicates target m store).store = some (initDB store)
      ∧ ∀ d, store = some d → (find_duplicates target m store).store = some d := by
  refine ⟨rfl, rfl, ?_⟩
  intro d hd
  subst hd
  rfl

/-- Witness for C8's amended theorem (vacuous hypotheses aside, an instance
at concrete arguments). -/
theorem C8_amended_abort_behaviour_witness :
    run_audit ⟨[], []⟩ "/x" false [] false 0 (some emptyDB) = (some emptyDB, zeroStats)
      ∧ (find_duplicates "/x" [] (some emptyDB)).store = some (initDB (some emptyDB))
      ∧ ∀ d, (some emptyDB : Option DB) = some d →
          (find_duplicates "/x" [] (some emptyDB)).store = some d :=
  C8_amended_abort_behaviour ⟨[], []⟩ "/x" [] false 0 (some emptyDB) []

/-! ## Claim C9 — the exclusion predicate -/

/-- C9: `should_exclude` is a pure function of the path and the rules, true
exactly when some configured substring occurs in the lowercased path
(both sides compared lowercased, i.e. case-insensitively) or the extension
allow-list is non-empty and the path's (lowercased) extension is not in it;
a substring hit alone suffices regardless of the extension rule. -/
theorem C9_should_exclude_iff (cfg : Config) (p : String) :
    (should_exclude cfg p = true ↔
      ((∃ ex ∈ cfg.exclusions, strContains (strLower p) (strLower ex) = true)
        ∨ (cfg.ext_filter ≠ [] ∧ strLower (splitextExt p) ∉ cfg.ext_filter)))
      ∧ ((∃ ex ∈ cfg.exclusions, strContains (strLower p) (strLower ex) = true) →
          should_exclude cfg p = true) := by
  unfold should_exclude
  by_cases h1 : cfg.exclusions.any (fun ex => strContains (strLower p) (strLower ex)) = true
  · rw [if_pos h1]
    simp only [List.any_eq_true] at h1
    constructor
    · constructor
      · intro _
        left
        obtain ⟨x, hx, hpx⟩ := h1
        exact ⟨x, hx, hpx⟩
      · intro _; rfl
    · intro _; rfl
  · rw [if_neg h1]
    simp only [List.any_eq_true] at h1
    push_neg at h1
    have hnosub : ¬∃ ex ∈ cfg.exclusions, strContains (strLower p) (strLower ex) = true := by
      rintro ⟨x, hx, hpx⟩
      exact absurd hpx (by simpa using h1 x hx)
    by_cases h2 : cfg.ext_filter.isEmpty = true
    · rw [if_pos h2]
      have hempty : cfg.ext_filter = [] := by simpa using h2
      constructor
      · constructor
        · intro hfalse; cases hfalse
        · rintro (hsub | ⟨hne, _⟩)
          · exact absurd hsub hnosub
          · exact absurd hempty hne
      · intro hsub; exact absurd hsub hnosub
    · rw [if_neg h2]
      have hne : cfg.ext_filter ≠ [] := by simpa using h2
      constructor
      · constructor
        · intro hb
          right
          refine ⟨hne, ?_⟩
          intro hmem
          have : cfg.ext_filter.contains (strLower (splitextExt p)) = true := by
            rw [List.contains_iff_exists_mem_beq]
            exact ⟨strLower (splitextExt p), hmem, by simp⟩
          rw [this] at hb
          cases hb
        · rintro (hsub | ⟨_, hnotmem⟩)
          · exact absurd hsub hnosub
          · have : cfg.ext_filter.contains (strLower (splitextExt p)) = false := by
              cases hc : cfg.ext_filter.contains (strLower (splitextExt p)) with
              | false => rfl
              | true =>
                exfalso
                apply hnotmem
                rw [List.contains_iff_exists_mem_beq] at hc
                obtain ⟨a, ha, hba⟩ := hc
                have : strLower (splitextExt p) = a := by simpa using hba
                rw [this]
                exact ha
            rw [this]
            rfl
      · intro hsub; exact absurd hsub hnosub

/-! ## Duplicate-analysis lemmas (used by C6 and C7) -/

theorem contains_iff (l : List String) (a : String) :
    l.contains a = true ↔ a ∈ l := by
  rw [List.contains_iff_exists_mem_beq]
  constructor
  · rintro ⟨b, hb, hab⟩
    have : a = b := by simpa using hab
    rw [this]
    exact hb
  · intro ha
    exact ⟨a, ha, by simp⟩

theorem mem_dedupAcc (a : String) :
    ∀ (l seen : List String), a ∈ dedupAcc l seen ↔ a ∈ l ∧ a ∉ seen := by
  intro l
  induction l with
  | nil => intro seen; simp [dedupAcc]
  | cons x xs ih =>
    intro seen
    by_cases hx : seen.contains x = true
    · have hstep : dedupAcc (x :: xs) seen = dedupAcc xs seen := by
        simp only [dedupAcc, hx, if_true]
      rw [hstep, ih seen]
      constructor
      · rintro ⟨hmem, hns⟩
        exact ⟨List.mem_cons_of_mem x hmem, hns⟩
      · rintro ⟨hmem, hns⟩
        rcases List.mem_cons.mp hmem with heq | hmem'
        · exact absurd (heq ▸ (contains_iff seen x).mp hx) hns
        · exact ⟨hmem', hns⟩
    · have hstep : dedupAcc (x :: xs) seen = x :: dedupAcc xs (x :: seen) := by
        simp only [dedupAcc, hx, Bool.false_eq_true, if_false]
      rw [hstep, List.mem_cons, ih (x :: seen)]
      constructor
      · rintro (heq | ⟨hmem, hns⟩)
        · subst heq
          exact ⟨List.mem_cons_self a xs,
            fun hseen => hx ((contains_iff seen a).mpr hseen)⟩
        · exact ⟨List.mem_cons_of_mem x hmem,
            fun hseen => hns (List.mem_cons_of_mem x hseen)⟩
      · rintro ⟨hmem, hns⟩
        by_cases hax : a = x
        · left; exact hax
        · right
          rcases List.mem_cons.mp hmem with heq | hmem'
          · exact absurd heq hax
          · refine ⟨hmem', fun hmem2 => ?_⟩
            rcases List.mem_cons.mp hmem2 with heq | hseen
            · exact hax heq
            · exact hns hseen

theorem mem_dedup (a : String) (l : List String) : a ∈ dedup l ↔ a ∈ l := by
  unfold dedup
  rw [mem_dedupAcc]
  simp

theorem dedupAcc_eq_self :
    ∀ (l seen : List String), l.Nodup → (∀ x ∈ l, x ∉ seen) →
      dedupAcc l seen = l := by
  intro l
  induction l with
  | nil => intro seen _ _; rfl
  | cons x xs ih =>
    intro seen hnd hns
    have hx : seen.contains x = false := by
      cases hc : seen.contains x
      · rfl
      · exact absurd ((contains_iff seen x).mp hc)
          (hns x (List.mem_cons_self x xs))
    have hstep : dedupAcc (x :: xs) seen = x :: dedupAcc xs (x :: seen) := by
      simp only [dedupAcc, hx, Bool.false_eq_true, if_false]
    rw [hstep]
    rw [List.nodup_cons] at hnd
    congr 1
    apply ih (x :: seen) hnd.2
    intro y hy hymem
    rcases List.mem_cons.mp hymem with heq | hseen
    · exact hnd.1 (heq ▸ hy)
    · exact hns y (List.mem_cons_of_mem x hy) hseen

theorem dedup_eq_self (l : List String) (h : l.Nodup) : dedup l = l :=
  dedupAcc_eq_self l [] h (by simp)

/-- The group membership list for hash `h`, reordered as a refinement of the
hash-count query `find_duplicates` runs first. -/
theorem members_eq_filter_relevant (db : DB) (target : String) (h : String) :
    ((db.rows.filter (fun r =>
        likePrefixMatch target r.file_path && r.status == "active")).filter
      (fun r => r.sha256_hash == h))
      = db.rows.filter (fun r =>
          r.sha256_hash == h && r.status == "active"
            && likePrefixMatch target r.file_path) := by
  rw [List.filter_filter]
  apply List.filter_congr
  intro r _
  cases hb1 : (r.sha256_hash == h)
    <;> cases hb2 : (r.status == "active")
    <;> cases hb3 : (likePrefixMatch target r.file_path)
    <;> rfl

/-- What `groupFor` reports when it reports. -/
theorem groupFor_some_spec (db : DB) (target : String)
    (m : List (String × List String)) (h : String) (g : DupGroup)
    (hg : groupFor db target m h = some g) :
    g.hash = h
      ∧ g.size_bytes
          = ((nonArchivalMembers db target h).head?.map (fun r => r.file_size)).getD 0
      ∧ g.files = dedup ((nonArchivalMembers db target h).map (fun r => r.file_path))
      ∧ (nonArchivalMembers db target h).length > 1
      ∧ suppressedByKnown m h
          (dedup ((nonArchivalMembers db target h).map (fun r => r.file_path))) = false := by
  unfold groupFor at hg
  by_cases hs : suppressedByKnown m h
      (dedup ((nonArchivalMembers db target h).map (fun r => r.file_path))) = true
  · rw [if_pos hs] at hg
    cases hg
  · rw [if_neg hs] at hg
    by_cases hlen : (nonArchivalMembers db target h).length > 1
    · rw [if_pos hlen] at hg
      injection hg with hg
      subst hg
      refine ⟨rfl, rfl, rfl, hlen, ?_⟩
      cases hc : suppressedByKnown m h
          (dedup ((nonArchivalMembers db target h).map (fun r => r.file_path)))
      · rfl
      · exact absurd hc hs
    · rw [if_neg hlen] at hg
      cases hg

/-- When `groupFor` stays silent. -/
theorem groupFor_none_spec (db : DB) (target : String)
    (m : List (String × List String)) (h : String)
    (hlen : (nonArchivalMembers db target h).length > 1)
    (hs : suppressedByKnown m h
        (dedup ((nonArchivalMembers db target h).map (fun r => r.file_path))) = false) :
    ∃ g, groupFor db target m h = some g := by
  simp only [groupFor, hs, Bool.false_eq_true, if_false, if_pos hlen]
  exact ⟨_, rfl⟩

/-- `dupStep` appends exactly the group `groupFor` decides on, adding the
corresponding wasted-space and duplicate-count contributions. -/
theorem dupStep_char (db : DB) (target : String)
    (m : List (String × List String)) (acc : List DupGroup × Nat × Nat)
    (h : String) :
    dupStep db target m acc h
      = match groupFor db target m h with
        | none => acc
        | some g =>
          (acc.1 ++ [g],
            acc.2.1 + g.size_bytes * ((nonArchivalMembers db target h).length - 1),
            acc.2.2 + ((nonArchivalMembers db target h).length - 1)) := by
  simp only [dupStep, groupFor]
  by_cases hs : suppressedByKnown m h
      (dedup ((nonArchivalMembers db target h).map (fun r => r.file_path))) = true
  · rw [if_pos hs, if_pos hs]
  · rw [if_neg hs, if_neg hs]
    by_cases hlen : (nonArchivalMembers db target h).length > 1
    · rw [if_pos hlen, if_pos hlen]
    · rw [if_neg hlen, if_neg hlen]

/-- The reporting fold of `find_duplicates`, characterised. -/
theorem dupFold_char (db : DB) (target : String)
    (m : List (String × List String)) :
    ∀ (L : List String) (acc : List DupGroup × Nat × Nat),
      (L.foldl (dupStep db target m) acc).1
          = acc.1 ++ L.filterMap (groupFor db target m)
        ∧ (L.foldl (dupStep db target m) acc).2.1
            = acc.2.1 + ((L.filterMap (groupFor db target m)).map
                (fun g => g.size_bytes
                  * ((nonArchivalMembers db target g.hash).length - 1))).sum
        ∧ (L.foldl (dupStep db target m) acc).2.2
            = acc.2.2 + ((L.filterMap (groupFor db target m)).map
                (fun g => (nonArchivalMembers db target g.hash).length - 1)).sum := by
  intro L
  induction L with
  | nil => intro acc; simp
  | cons h rest ih =>
    intro acc
    have hfold : (h :: rest).foldl (dupStep db target m) acc
        = rest.foldl (dupStep db target m) (dupStep db target m acc h) := rfl
    rw [hfold]
    cases hg : groupFor db target m h with
    | none =>
      have hstep : dupStep db target m acc h = acc := by
        rw [dupStep_char db target m acc h, hg]
      rw [hstep, List.filterMap_cons_none hg]
      exact ih acc
    | some g =>
      have hstep : dupStep db target m acc h
          = (acc.1 ++ [g],
              acc.2.1 + g.size_bytes * ((nonArchivalMembers db target h).length - 1),
              acc.2.2 + ((nonArchivalMembers db target h).length - 1)) := by
        rw [dupStep_char db target m acc h, hg]
      rw [hstep, List.filterMap_cons_some hg]
      obtain ⟨ih1, ih2, ih3⟩ := ih
        (acc.1 ++ [g],
          acc.2.1 + g.size_bytes * ((nonArchivalMembers db target h).length - 1),
          acc.2.2 + ((nonArchivalMembers db target h).length - 1))
      have hghash : g.hash = h := (groupFor_some_spec db target m h g hg).1
      refine ⟨?_, ?_, ?_⟩
      · rw [ih1]
        simp
      · rw [ih2]
        simp only [List.map_cons, List.sum_cons, hghash]
        rw [Nat.add_assoc]
      · rw [ih3]
        simp only [List.map_cons, List.sum_cons, hghash]
        rw [Nat.add_assoc]

theorem find_duplicates_groups (target : String)
    (m : List (String × List String)) (store : Option DB) :
    (find_duplicates target m store).groups
      = ((dedup (((initDB store).rows.filter (fun r =>
            likePrefixMatch target r.file_path && r.status == "active")).map
              (fun r => r.sha256_hash))).filter (fun h =>
            (((initDB store).rows.filter (fun r =>
                likePrefixMatch target r.file_path && r.status == "active")).filter
              (fun r => r.sha256_hash == h)).length > 1)).filterMap
          (groupFor (initDB store) target m) := by
  have h0 : (find_duplicates target m store).groups
      = (((dedup (((initDB store).rows.filter (fun r =>
            likePrefixMatch target r.file_path && r.status == "active")).map
              (fun r => r.sha256_hash))).filter (fun h =>
            (((initDB store).rows.filter (fun r =>
                likePrefixMatch target r.file_path && r.status == "active")).filter
              (fun r => r.sha256_hash == h)).length > 1)).foldl
          (dupStep (initDB store) target m) ([], 0, 0)).1 := rfl
  rw [h0, (dupFold_char _ _ _ _ _).1, List.nil_append]

theorem find_duplicates_waste (target : String)
    (m : List (String × List String)) (store : Option DB) :
    (find_duplicates target m store).total_wasted_space
      = ((find_duplicates target m store).groups.map
          (fun g => g.size_bytes
            * ((nonArchivalMembers (initDB store) target g.hash).length - 1))).sum := by
  have h0 : (find_duplicates target m store).total_wasted_space
      = (((dedup (((initDB store).rows.filter (fun r =>
            likePrefixMatch target r.file_path && r.status == "active")).map
              (fun r => r.sha256_hash))).filter (fun h =>
            (((initDB store).rows.filter (fun r =>
                likePrefixMatch target r.file_path && r.status == "active")).filter
              (fun r => r.sha256_hash == h)).length > 1)).foldl
          (dupStep (initDB store) target m) ([], 0, 0)).2.1 := rfl
  rw [h0, (dupFold_char _ _ _ _ _).2.1, Nat.zero_add, find_duplicates_groups]

/-- The member rows of hash `h` have pairwise-distinct paths when the store
does. -/
theorem nonArchivalMembers_paths_nodup (db : DB) (target : String) (h : String)
    (hpaths : (db.rows.map (fun r => r.file_path)).Nodup) :
    ((nonArchivalMembers db target h).map (fun r => r.file_path)).Nodup := by
  apply List.Nodup.sublist _ hpaths
  apply List.Sublist.map
  exact (List.filter_sublist _).trans (List.filter_sublist _)

/-- The central characterisation: a group for hash `h` appears in the report
exactly when more than one active, non-archival row under the target carries
`h` and the known-duplicates entry does not cover all their paths. -/
theorem group_reported_iff (target : String) (m : List (String × List String))
    (store : Option DB) (hwf : WF (initDB store)) (h : String) :
    ((find_duplicates target m store).groups.any (fun g => g.hash == h)) = true
      ↔ ((nonArchivalMembers (initDB store) target h).length > 1
          ∧ suppressedByKnown m h
              ((nonArchivalMembers (initDB store) target h).map
                (fun r => r.file_path)) = false) := by
  obtain ⟨-, hpaths, -⟩ := hwf
  have hmem := nonArchivalMembers_paths_nodup (initDB store) target h hpaths
  have hded : dedup ((nonArchivalMembers (initDB store) target h).map
      (fun r => r.file_path))
      = (nonArchivalMembers (initDB store) target h).map (fun r => r.file_path) :=
    dedup_eq_self _ hmem
  rw [find_duplicates_groups]
  constructor
  · intro hany
    obtain ⟨g, hg, hgh⟩ := List.any_eq_true.mp hany
    obtain ⟨h', hh', hgf⟩ := List.mem_filterMap.mp hg
    obtain ⟨hhash, -, -, hlen, hsup⟩ := groupFor_some_spec _ _ _ _ _ hgf
    have hh : h' = h := by
      rw [← hhash]
      simpa using hgh
    subst hh
    rw [hded] at hsup
    exact ⟨hlen, hsup⟩
  · rintro ⟨hlen, hsup⟩
    have hsup' : suppressedByKnown m h
        (dedup ((nonArchivalMembers (initDB store) target h).map
          (fun r => r.file_path))) = false := by
      rw [hded]
      exact hsup
    obtain ⟨g, hg⟩ := groupFor_none_spec (initDB store) target m h hlen hsup'
    have hmem0 : (nonArchivalMembers (initDB store) target h) ≠ [] := by
      intro hnil
      rw [hnil] at hlen
      exact absurd hlen (by simp)
    obtain ⟨r0, hr0⟩ := List.exists_mem_of_ne_nil _ hmem0
    have hr0' := hr0
    unfold nonArchivalMembers at hr0'
    rw [List.mem_filter] at hr0'
    obtain ⟨hr0f, hr0arch⟩ := hr0'
    rw [List.mem_filter] at hr0f
    obtain ⟨hr0rows, hr0pred⟩ := hr0f
    rw [Bool.and_eq_true] at hr0pred
    obtain ⟨hr0hs, hr0pre⟩ := hr0pred
    rw [Bool.and_eq_true] at hr0hs
    obtain ⟨hr0h, hr0act⟩ := hr0hs
    have hr0hash : r0.sha256_hash = h := by simpa using hr0h
    have hrel : r0 ∈ (initDB store).rows.filter (fun r =>
        likePrefixMatch target r.file_path && r.status == "active") := by
      rw [List.mem_filter]
      refine ⟨hr0rows, ?_⟩
      rw [Bool.and_eq_true]
      exact ⟨hr0pre, hr0act⟩
    apply List.any_eq_true.mpr
    refine ⟨g, ?_, ?_⟩
    · apply List.mem_filterMap.mpr
      refine ⟨h, ?_, hg⟩
      rw [List.mem_filter]
      constructor
      · rw [mem_dedup]
        apply List.mem_map.mpr
        exact ⟨r0, hrel, hr0hash⟩
      · have hfe := members_eq_filter_relevant (initDB store) target h
        have hsub : (nonArchivalMembers (initDB store) target h).length
            ≤ ((initDB store).rows.filter (fun r =>
                r.sha256_hash == h && r.status == "active"
                  && likePrefixMatch target r.file_path)).length := by
          unfold nonArchivalMembers
          exact List.length_filter_le _ _
        rw [hfe]
        simp only [decide_eq_true_eq]
        omega
    · have hghash : g.hash = h := (groupFor_some_spec _ _ _ _ _ hg).1
      simp [hghash]

/-- `suppressedByKnown` unfolded to its specification. -/
theorem suppressed_iff (m : List (String × List String)) (h : String)
    (paths : List String) :
    suppressedByKnown m h paths = true
      ↔ ∃ accepted, lookupKnown m h = some accepted
          ∧ ∀ p ∈ paths, accepted.contains p = true := by
  unfold suppressedByKnown
  cases hl : lookupKnown m h with
  | none =>
    simp only [hl]
    constructor
    · intro hfalse; cases hfalse
    · rintro ⟨a, ha, -⟩; cases ha
  | some accepted =>
    simp only [hl, List.all_eq_true]
    constructor
    · intro hall
      exact ⟨accepted, rfl, hall⟩
    · rintro ⟨a, ha, hall⟩
      injection ha with ha
      subst ha
      exact hall

/-! ## Lemmas for the two-run property (C4) -/

theorem find?_congr_mem {α : Type} {p q : α → Bool} :
    ∀ l : List α, (∀ x ∈ l, p x = q x) → l.find? p = l.find? q := by
  intro l
  induction l with
  | nil => intro _; rfl
  | cons a as ih =>
    intro hpq
    have ha := hpq a (List.mem_cons_self a as)
    cases hq : q a with
    | true =>
      rw [List.find?_cons_of_pos as (ha.trans hq), List.find?_cons_of_pos as hq]
    | false =>
      rw [List.find?_cons_of_neg as (by rw [ha, hq]; exact Bool.false_ne_true),
        List.find?_cons_of_neg as (by rw [hq]; exact Bool.false_ne_true)]
      exact ih (fun x hx => hpq x (List.mem_cons_of_mem a hx))

/-- With pairwise-distinct ids, searching for `c`'s id finds `c` itself. -/
theorem find?_by_id_eq (rows : List FileRecord) (c : FileRecord)
    (hids : (rows.map (fun r => r.id)).Nodup) (hc : c ∈ rows) :
    rows.find? (fun x => x.id == c.id) = some c := by
  induction rows with
  | nil => cases hc
  | cons a as ih =>
    simp only [List.map_cons, List.nodup_cons] at hids
    rcases List.mem_cons.mp hc with heq | hmem
    · subst heq
      exact List.find?_cons_of_pos as (by simp)
    · have hane : (a.id == c.id) = false := by
        have : a.id ≠ c.id := by
          intro hcontra
          exact hids.1 (hcontra ▸ List.mem_map_of_mem _ hmem)
        simp [this]
      rw [List.find?_cons_of_neg as (by rw [hane]; exact Bool.false_ne_true)]
      exact ih hids.2 hmem

theorem pathExists_of_mem (fs : List ScannedFile) (f : ScannedFile)
    (hf : f ∈ fs) : pathExists fs f.path = true := by
  unfold pathExists
  exact List.any_eq_true.mpr ⟨f, hf, by simp⟩

/-- `good` transports along any row map that fixes path, size and mtime. -/
theorem good_of_rows_eq_map (db db' : DB) (u : FileRecord → FileRecord)
    (hrows : db'.rows = db.rows.map u)
    (hpath : ∀ r, (u r).file_path = r.file_path)
    (hsz : ∀ r, (u r).file_size = r.file_size)
    (hmt : ∀ r, (u r).mtime = r.mtime)
    (sf : ScannedFile) (h : good db sf) : good db' sf := by
  obtain ⟨r, hfind, hrsz, hrmt⟩ := h
  refine ⟨u r, ?_, by rw [hsz]; exact hrsz, by rw [hmt]; exact hrmt⟩
  unfold findByPath at hfind ⊢
  rw [hrows, find?_path_map db.rows u hpath sf.path, hfind]
  rfl

/-- One classification step of a file at a *different*, still-present path
keeps `good` for `sf`. -/
theorem good_preserved_processFile (fs : List ScannedFile) (force : Bool)
    (t : Int) (db : DB) (f sf : ScannedFile)
    (hwf : WF db) (hpe : pathExists fs sf.path = true)
    (hne : f.path ≠ sf.path)
    (h : good db sf) : good (processFile fs force t db f).2 sf := by
  obtain ⟨hids, hpaths, -⟩ := hwf
  obtain ⟨r, hfind, hrsz, hrmt⟩ := h
  have hrpath : r.file_path = sf.path := by
    have := List.find?_some hfind
    simpa using this
  unfold processFile
  cases hfind' : findByPath db f.path with
  | some r' =>
    have hr'path : r'.file_path = f.path := by
      have := List.find?_some hfind'
      simpa using this
    have hr'mem := List.mem_of_find?_eq_some hfind'
    have hrmem := List.mem_of_find?_eq_some hfind
    have hidne : r.id ≠ r'.id := by
      intro hcontra
      have : r = r' := List.inj_on_of_nodup_map hids hrmem hr'mem hcontra
      rw [this, hr'path] at hrpath
      exact hne hrpath
    have hkeep : ∀ (g : FileRecord → FileRecord),
        (∀ x, (g x).file_path = x.file_path) →
        good (updateById db r'.id g) sf := by
      intro g hg
      refine ⟨if r.id == r'.id then g r else r, ?_, ?_, ?_⟩
      · show (updateById db r'.id g).rows.find? (fun x => x.file_path == sf.path)
            = some _
        unfold updateById
        rw [find?_path_map db.rows _
          (fun x => by by_cases hx : (x.id == r'.id) = true
                       · simp [hx, hg]
                       · simp [hx]) sf.path]
        rw [show db.rows.find? (fun x => x.file_path == sf.path) = some r from hfind]
        rfl
      · have : (r.id == r'.id) = false := by simp [hidne]
        rw [this]
        exact hrsz
      · have : (r.id == r'.id) = false := by simp [hidne]
        rw [this]
        exact hrmt
    cases hfast : (!force && r'.file_size == f.size && r'.mtime == f.mtime) with
    | true =>
      simp only [hfast, if_true]
      exact hkeep _ (fun x => rfl)
    | false =>
      cases hhash : calculate_sha256 f with
      | none =>
        simp only [hfast, Bool.false_eq_true, if_false, hhash]
        exact ⟨r, hfind, hrsz, hrmt⟩
      | some new_hash =>
        simp only [hfast, Bool.false_and, Bool.false_eq_true, if_false, hhash]
        exact hkeep _ (fun x => rfl)
  | none =>
    cases hhash : calculate_sha256 f with
    | none =>
      simp only [hhash]
      exact ⟨r, hfind, hrsz, hrmt⟩
    | some new_hash =>
      have hnof : ∀ x ∈ db.rows, x.file_path ≠ f.path :=
        (findByPath_none_iff db f.path).mp hfind'
      cases hmv : (db.rows.filter (fun x =>
          x.sha256_hash == new_hash && x.file_size == f.size)).find?
          (fun c => !pathExists fs c.file_path) with
      | some c =>
        simp only [hhash, hmv]
        have hcmem : c ∈ db.rows :=
          (List.mem_filter.mp (List.mem_of_find?_eq_some hmv)).1
        have hcex : pathExists fs c.file_path = false := by
          have hq := List.find?_some hmv
          cases hpe2 : pathExists fs c.file_path
          · rfl
          · rw [hpe2] at hq; cases hq
        have hrmem := List.mem_of_find?_eq_some hfind
        have hcr : c ≠ r := by
          intro hcontra
          rw [hcontra, hrpath, hpe] at hcex
          cases hcex
        have hcidne : r.id ≠ c.id := by
          intro hcontra
          exact hcr (List.inj_on_of_nodup_map hids hrmem hcmem hcontra).symm
        refine ⟨r, ?_, hrsz, hrmt⟩
        show (updateById db c.id _).rows.find? (fun x => x.file_path == sf.path)
            = some r
        unfold updateById
        rw [List.find?_map]
        have hpq : ∀ x ∈ db.rows,
            ((fun x => x.file_path == sf.path) ∘ fun x =>
              if x.id == c.id then
                { x with file_path := f.path, file_name := f.name, mtime := f.mtime,
                         last_seen := t, status := "active" }
              else x) x
            = (fun x : FileRecord => x.file_path == sf.path) x := by
          intro x hx
          by_cases hxid : (x.id == c.id) = true
          · simp only [Function.comp, hxid, if_true]
            show (f.path == sf.path) = (x.file_path == sf.path)
            have hxc : x = c :=
              List.inj_on_of_nodup_map hids hx hcmem (by simpa using hxid)
            have h1 : (f.path == sf.path) = false := by simp [hne]
            have h2 : (x.file_path == sf.path) = false := by
              have hxne : x.file_path ≠ sf.path := by
                intro hcontra
                have hxr : x = r :=
                  List.inj_on_of_nodup_map hpaths hx hrmem
                    (hcontra.trans hrpath.symm)
                exact hcr (by rw [← hxc]; exact hxr)
              simp [hxne]
            rw [h1, h2]
          · simp [Function.comp, hxid]
        rw [find?_congr_mem db.rows hpq]
        rw [show db.rows.find? (fun x => x.file_path == sf.path) = some r from hfind]
        simp only [Option.map_some']
        have hfalse : (r.id == c.id) = false := by simp [hcidne]
        rw [hfalse]
        simp
      | none =>
        simp only [hhash, hmv]
        refine ⟨r, ?_, hrsz, hrmt⟩
        show (insertRecord db f.path f.name f.size f.mtime new_hash t).rows.find?
            (fun x => x.file_path == sf.path) = some r
        unfold insertRecord
        rw [List.find?_append]
        rw [show db.rows.find? (fun x => x.file_path == sf.path) = some r from hfind]
        rfl

/-- After classifying a readable file, its path holds a record with the
observed size and mtime. -/
theorem good_established_processFile (fs : List ScannedFile) (force : Bool)
    (t : Int) (db : DB) (f : ScannedFile)
    (hwf : WF db) (hread : calculate_sha256 f ≠ none) :
    good (processFile fs force t db f).2 f := by
  obtain ⟨hids, hpaths, -⟩ := hwf
  unfold processFile
  cases hfind : findByPath db f.path with
  | some r =>
    cases hfast : (!force && r.file_size == f.size && r.mtime == f.mtime) with
    | true =>
      have h1 := hfast
      rw [Bool.and_eq_true] at h1
      have h2 := h1.1
      rw [Bool.and_eq_true] at h2
      have hsz : r.file_size = f.size := by simpa using h2.2
      have hmt : r.mtime = f.mtime := by simpa using h1.2
      simp only [hfast, if_true]
      refine ⟨{ r with last_seen := t, status := "active" }, ?_, hsz, hmt⟩
      show (updateById db r.id _).rows.find? (fun x => x.file_path == f.path)
          = some _
      unfold updateById
      rw [find?_path_map db.rows _
        (fun x => by by_cases hx : (x.id == r.id) = true <;> simp [hx]) f.path]
      rw [show db.rows.find? (fun x => x.file_path == f.path) = some r from hfind]
      simp only [Option.map_some']
      rw [show (r.id == r.id) = true from by simp]
      rfl
    | false =>
      cases hhash : calculate_sha256 f with
      | none => exact absurd hhash hread
      | some nh =>
        simp only [hfast, Bool.false_and, Bool.false_eq_true, if_false, hhash]
        refine ⟨{ r with
            file_size := f.size, mtime := f.mtime, sha256_hash := nh,
            last_seen := t, status := "active" },
          ?_, rfl, rfl⟩
        show (updateById db r.id _).rows.find? (fun x => x.file_path == f.path)
            = some _
        unfold updateById
        rw [find?_path_map db.rows _
          (fun x => by by_cases hx : (x.id == r.id) = true <;> simp [hx]) f.path]
        rw [show db.rows.find? (fun x => x.file_path == f.path) = some r from hfind]
        simp only [Option.map_some']
        rw [show (r.id == r.id) = true from by simp]
        rfl
  | none =>
    cases hhash : calculate_sha256 f with
    | none => exact absurd hhash hread
    | some nh =>
      have hnof := (findByPath_none_iff db f.path).mp hfind
      cases hmv : (db.rows.filter (fun x =>
          x.sha256_hash == nh && x.file_size == f.size)).find?
          (fun c => !pathExists fs c.file_path) with
      | some c =>
        simp only [hhash, hmv]
        have hcfil := List.mem_filter.mp (List.mem_of_find?_eq_some hmv)
        have hcmem := hcfil.1
        have hcsz : c.file_size = f.size := by
          have h := hcfil.2
          rw [Bool.and_eq_true] at h
          simpa using h.2
        refine ⟨{ c with
            file_path := f.path, file_name := f.name, mtime := f.mtime,
            last_seen := t, status := "active" },
          ?_, hcsz, rfl⟩
        show (updateById db c.id _).rows.find? (fun x => x.file_path == f.path)
            = some _
        unfold updateById
        rw [List.find?_map]
        have hpq : ∀ x ∈ db.rows,
            ((fun x => x.file_path == f.path) ∘ fun x =>
              if x.id == c.id then
                { x with file_path := f.path, file_name := f.name, mtime := f.mtime,
                         last_seen := t, status := "active" }
              else x) x
            = (fun x : FileRecord => x.id == c.id) x := by
          intro x hx
          by_cases hxid : (x.id == c.id) = true
          · simp [Function.comp, hxid]
          · have hxne : (x.file_path == f.path) = false := by
              simp [hnof x hx]
            simp [Function.comp, hxid, hxne]
        rw [find?_congr_mem db.rows hpq]
        rw [find?_by_id_eq db.rows c hids hcmem]
        simp only [Option.map_some']
        rw [show (c.id == c.id) = true from by simp]
        rfl
      | none =>
        simp only [hhash, hmv]
        refine ⟨⟨db.nextId, f.path, f.name, f.size, f.mtime, nh, t, "active"⟩,
          ?_, rfl, rfl⟩
        show (insertRecord db f.path f.name f.size f.mtime nh t).rows.find?
            (fun x => x.file_path == f.path) = some _
        unfold insertRecord
        rw [List.find?_append]
        have hnone : db.rows.find? (fun x => x.file_path == f.path) = none := by
          rw [List.find?_eq_none]
          intro x hx
          simpa using hnof x hx
        rw [hnone]
        simp

theorem good_preserved_scanStep (cfg : Config) (fs : List ScannedFile)
    (force : Bool) (t : Int) (acc : DB × Stats) (f sf : ScannedFile)
    (hwf : WF acc.1) (hpe : pathExists fs sf.path = true)
    (hne : f.path ≠ sf.path) (h : good acc.1 sf) :
    good (scanStep cfg fs force t acc f).1 sf := by
  unfold scanStep
  by_cases hex : should_exclude cfg f.path = true
  · rw [if_pos hex]; exact h
  · rw [if_neg hex]
    exact good_preserved_processFile fs force t acc.1 f sf hwf hpe hne h

theorem good_preserved_scanFold (cfg : Config) (fs : List ScannedFile)
    (force : Bool) (t : Int) :
    ∀ (files : List ScannedFile) (acc : DB × Stats) (sf : ScannedFile),
      WF acc.1 → pathExists fs sf.path = true →
      (∀ f ∈ files, f.path ≠ sf.path) → good acc.1 sf →
      good ((files.foldl (scanStep cfg fs force t) acc)).1 sf := by
  intro files
  induction files with
  | nil => intro acc sf _ _ _ h; exact h
  | cons f rest ih =>
    intro acc sf hwf hpe hne h
    exact ih (scanStep cfg fs force t acc f) sf
      (WF_scanStep cfg fs force t acc f hwf) hpe
      (fun x hx => hne x (List.mem_cons_of_mem f hx))
      (good_preserved_scanStep cfg fs force t acc f sf hwf hpe
        (hne f (List.mem_cons_self f rest)) h)

/-- After the traversal fold, every readable, present, non-excluded file has
a record carrying its observed size and mtime. -/
theorem good_after_scanFold (cfg : Config) (fs : List ScannedFile)
    (force : Bool) (t : Int) :
    ∀ (files : List ScannedFile) (acc : DB × Stats),
      WF acc.1 →
      (∀ f ∈ files, pathExists fs f.path = true) →
      (∀ f ∈ files, calculate_sha256 f ≠ none) →
      (files.map (fun f => f.path)).Nodup →
      ∀ f ∈ files, ¬(should_exclude cfg f.path = true) →
        good ((files.foldl (scanStep cfg fs force t) acc)).1 f := by
  intro files
  induction files with
  | nil => intro acc _ _ _ _ f hf; cases hf
  | cons g rest ih =>
    intro acc hwf hpe hread hnd f hf hexf
    have hwf' := WF_scanStep cfg fs force t acc g hwf
    simp only [List.map_cons, List.nodup_cons] at hnd
    rcases List.mem_cons.mp hf with heq | hmem
    · subst heq
      have hstep : good (scanStep cfg fs force t acc f).1 f := by
        unfold scanStep
        rw [if_neg hexf]
        exact good_established_processFile fs force t acc.1 f hwf
          (hread f (List.mem_cons_self f rest))
      apply good_preserved_scanFold cfg fs force t rest _ f hwf'
        (hpe f (List.mem_cons_self f rest)) ?_ hstep
      intro x hx hcontra
      exact hnd.1 (hcontra ▸ List.mem_map_of_mem _ hx)
    · exact ih (scanStep cfg fs force t acc g) hwf'
        (fun x hx => hpe x (List.mem_cons_of_mem g hx))
        (fun x hx => hread x (List.mem_cons_of_mem g hx))
        hnd.2 f hmem hexf

/-- With every non-excluded file already `good`, a no-force scan classifies
everything Unchanged: New/Modified/Moved/BitRot counters do not move and
`scanned` grows in lockstep with `skipped_unchanged`. -/
theorem scanFold_all_unchanged (cfg : Config) (fs : List ScannedFile) (t : Int) :
    ∀ (files : List ScannedFile) (acc : DB × Stats),
      (∀ f ∈ files, ¬(should_exclude cfg f.path = true) → good acc.1 f) →
      (files.foldl (scanStep cfg fs false t) acc).2.new_files = acc.2.new_files
        ∧ (files.foldl (scanStep cfg fs false t) acc).2.modified_files
            = acc.2.modified_files
        ∧ (files.foldl (scanStep cfg fs false t) acc).2.moved_files
            = acc.2.moved_files
        ∧ (files.foldl (scanStep cfg fs false t) acc).2.bitrot_detected
            = acc.2.bitrot_detected
        ∧ (files.foldl (scanStep cfg fs false t) acc).2.scanned
              + acc.2.skipped_unchanged
            = (files.foldl (scanStep cfg fs false t) acc).2.skipped_unchanged
              + acc.2.scanned := by
  intro files
  induction files with
  | nil =>
    intro acc _
    exact ⟨rfl, rfl, rfl, rfl, Nat.add_comm _ _⟩
  | cons f rest ih =>
    intro acc hgood
    have hfold : (f :: rest).foldl (scanStep cfg fs false t) acc
        = rest.foldl (scanStep cfg fs false t) (scanStep cfg fs false t acc f) := rfl
    rw [hfold]
    by_cases hex : should_exclude cfg f.path = true
    · have hstep : scanStep cfg fs false t acc f = acc := by
        unfold scanStep
        rw [if_pos hex]
      rw [hstep]
      exact ih acc (fun x hx => hgood x (List.mem_cons_of_mem f hx))
    · obtain ⟨r, hfind, hsz, hmt⟩ := hgood f (List.mem_cons_self f rest) hex
      have hcond : (!false && r.file_size == f.size && r.mtime == f.mtime) = true := by
        simp [hsz, hmt]
      have hpf : processFile fs false t acc.1 f
          = (Classification.Unchanged,
              updateById acc.1 r.id (fun x =>
                { x with last_seen := t, status := "active" })) := by
        unfold processFile
        simp only [hfind]
        rw [if_pos hcond]
      have hdb : (scanStep cfg fs false t acc f).1
          = updateById acc.1 r.id (fun x =>
              { x with last_seen := t, status := "active" }) := by
        unfold scanStep
        rw [if_neg hex, hpf]
      have hnew : (scanStep cfg fs false t acc f).2.new_files = acc.2.new_files := by
        unfold scanStep
        rw [if_neg hex, hpf]
        rfl
      have hmod : (scanStep cfg fs false t acc f).2.modified_files
          = acc.2.modified_files := by
        unfold scanStep
        rw [if_neg hex, hpf]
        rfl
      have hmov : (scanStep cfg fs false t acc f).2.moved_files
          = acc.2.moved_files := by
        unfold scanStep
        rw [if_neg hex, hpf]
        rfl
      have hbit : (scanStep cfg fs false t acc f).2.bitrot_detected
          = acc.2.bitrot_detected := by
        unfold scanStep
        rw [if_neg hex, hpf]
        rfl
      have hsc : (scanStep cfg fs false t acc f).2.scanned = acc.2.scanned + 1 := by
        unfold scanStep
        rw [if_neg hex, hpf]
        rfl
      have hsk : (scanStep cfg fs false t acc f).2.skipped_unchanged
          = acc.2.skipped_unchanged + 1 := by
        unfold scanStep
        rw [if_neg hex, hpf]
        rfl
      have hgood' : ∀ x ∈ rest, ¬(should_exclude cfg x.path = true) →
          good (scanStep cfg fs false t acc f).1 x := by
        intro x hx hexx
        rw [hdb]
        apply good_of_rows_eq_map acc.1 _
          (fun y => if y.id == r.id then
            { y with last_seen := t, status := "active" } else y)
          rfl
          (fun y => by by_cases hy : (y.id == r.id) = true <;> simp [hy])
          (fun y => by by_cases hy : (y.id == r.id) = true <;> simp [hy])
          (fun y => by by_cases hy : (y.id == r.id) = true <;> simp [hy])
        exact hgood x (List.mem_cons_of_mem f hx) hexx
      obtain ⟨i1, i2, i3, i4, i5⟩ := ih (scanStep cfg fs false t acc f) hgood'
      refine ⟨i1.trans hnew, i2.trans hmod, i3.trans hmov, i4.trans hbit, ?_⟩
      rw [hsc, hsk] at i5
      omega

/-! ## Claim C4 — a second run over an unchanged tree is all-Unchanged -/

/-- C4: for a tree of readable files (pairwise-distinct paths) and any
well-formed starting store, running the audit twice without forced re-hash
and with no filesystem changes in between yields, on the second run, zero
New, Modified, Moved and BitRot classifications, and a scanned count equal
to the unchanged count. -/
theorem C4_second_run_all_unchanged (cfg : Config) (target : String)
    (fs : List ScannedFile) (t1 t2 : Int) (store : Option DB)
    (hwf : ∀ d, store = some d → WF d)
    (hread : ∀ f ∈ fs, calculate_sha256 f ≠ none)
    (hnd : (fs.map (fun f => f.path)).Nodup) :
    (run_audit cfg target true fs false t2
        (run_audit cfg target true fs false t1 store).1).2.new_files = 0
      ∧ (run_audit cfg target true fs false t2
          (run_audit cfg target true fs false t1 store).1).2.modified_files = 0
      ∧ (run_audit cfg target true fs false t2
          (run_audit cfg target true fs false t1 store).1).2.moved_files = 0
      ∧ (run_audit cfg target true fs false t2
          (run_audit cfg target true fs false t1 store).1).2.bitrot_detected = 0
      ∧ (run_audit cfg target true fs false t2
            (run_audit cfg target true fs false t1 store).1).2.scanned
          = (run_audit cfg target true fs false t2
              (run_audit cfg target true fs false t1 store).1).2.skipped_unchanged := by
  have hwf0 : WF (initDB store) := WF_initDB store hwf
  have hwfdb1 : WF (runFiles cfg fs false t1 (initDB store)).1 :=
    WF_scanFold cfg fs false t1 fs (initDB store, zeroStats) hwf0
  have hdb1good : ∀ f ∈ fs, ¬(should_exclude cfg f.path = true) →
      good (runFiles cfg fs false t1 (initDB store)).1 f :=
    fun f hf hex =>
      good_after_scanFold cfg fs false t1 fs (initDB store, zeroStats) hwf0
        (fun x hx => pathExists_of_mem fs x hx) hread hnd f hf hex
  have hchar := reconcile_rows_char fs target t1
    (runFiles cfg fs false t1 (initDB store)).1 hwfdb1.2.1
  have hgoodR : ∀ f ∈ fs, ¬(should_exclude cfg f.path = true) →
      good (reconcile fs target t1 (runFiles cfg fs false t1 (initDB store)).1).1 f := by
    intro f hf hex
    exact good_of_rows_eq_map (runFiles cfg fs false t1 (initDB store)).1 _
      (fun r => if likePrefixMatch target r.file_path
          && decide (r.last_seen < t1 - 3600) && (r.status == "active")
          && !pathExists fs r.file_path then markMissing r else r)
      hchar
      (fun r => by
        by_cases hc : (likePrefixMatch target r.file_path
            && decide (r.last_seen < t1 - 3600) && (r.status == "active")
            && !pathExists fs r.file_path) = true <;> simp [hc, markMissing])
      (fun r => by
        by_cases hc : (likePrefixMatch target r.file_path
            && decide (r.last_seen < t1 - 3600) && (r.status == "active")
            && !pathExists fs r.file_path) = true <;> simp [hc, markMissing])
      (fun r => by
        by_cases hc : (likePrefixMatch target r.file_path
            && decide (r.last_seen < t1 - 3600) && (r.status == "active")
            && !pathExists fs r.file_path) = true <;> simp [hc, markMissing])
      f (hdb1good f hf hex)
  obtain ⟨i1, i2, i3, i4, i5⟩ := scanFold_all_unchanged cfg fs t2 fs
    ((reconcile fs target t1 (runFiles cfg fs false t1 (initDB store)).1).1, zeroStats)
    (fun f hf hex => hgoodR f hf hex)
  have h1 : (run_audit cfg target true fs false t1 store).1
      = some (reconcile fs target t1 (runFiles cfg fs false t1 (initDB store)).1).1 :=
    rfl
  rw [h1]
  have e1 : zeroStats.skipped_unchanged = 0 := rfl
  have e2 : zeroStats.scanned = 0 := rfl
  rw [e1, e2] at i5
  exact ⟨i1, i2, i3, i4, by
    show (fs.foldl (scanStep cfg fs false t2)
        ((reconcile fs target t1 (runFiles cfg fs false t1 (initDB store)).1).1,
          zeroStats)).2.scanned
      = (fs.foldl (scanStep cfg fs false t2)
        ((reconcile fs target t1 (runFiles cfg fs false t1 (initDB store)).1).1,
          zeroStats)).2.skipped_unchanged
    omega⟩

/-- Witness for C4: two files under "/v/", empty starting store. -/
theorem C4_second_run_all_unchanged_witness :
    (run_audit ⟨[], []⟩ "/v/" true
        [⟨"/v/a", "a", 3, 5, some "ha"⟩, ⟨"/v/b", "b", 4, 6, some "hb"⟩] false 2000
        (run_audit ⟨[], []⟩ "/v/" true
          [⟨"/v/a", "a", 3, 5, some "ha"⟩, ⟨"/v/b", "b", 4, 6, some "hb"⟩] false 1000
          none).1).2.new_files = 0
      ∧ (run_audit ⟨[], []⟩ "/v/" true
          [⟨"/v/a", "a", 3, 5, some "ha"⟩, ⟨"/v/b", "b", 4, 6, some "hb"⟩] false 2000
          (run_audit ⟨[], []⟩ "/v/" true
            [⟨"/v/a", "a", 3, 5, some "ha"⟩, ⟨"/v/b", "b", 4, 6, some "hb"⟩] false 1000
            none).1).2.modified_files = 0
      ∧ (run_audit ⟨[], []⟩ "/v/" true
          [⟨"/v/a", "a", 3, 5, some "ha"⟩, ⟨"/v/b", "b", 4, 6, some "hb"⟩] false 2000
          (run_audit ⟨[], []⟩ "/v/" true
            [⟨"/v/a", "a", 3, 5, some "ha"⟩, ⟨"/v/b", "b", 4, 6, some "hb"⟩] false 1000
            none).1).2.moved_files = 0
      ∧ (run_audit ⟨[], []⟩ "/v/" true
          [⟨"/v/a", "a", 3, 5, some "ha"⟩, ⟨"/v/b", "b", 4, 6, some "hb"⟩] false 2000
          (run_audit ⟨[], []⟩ "/v/" true
            [⟨"/v/a", "a", 3, 5, some "ha"⟩, ⟨"/v/b", "b", 4, 6, some "hb"⟩] false 1000
            none).1).2.bitrot_detected = 0
      ∧ (run_audit ⟨[], []⟩ "/v/" true
            [⟨"/v/a", "a", 3, 5, some "ha"⟩, ⟨"/v/b", "b", 4, 6, some "hb"⟩] false 2000
            (run_audit ⟨[], []⟩ "/v/" true
              [⟨"/v/a", "a", 3, 5, some "ha"⟩, ⟨"/v/b", "b", 4, 6, some "hb"⟩] false 1000
              none).1).2.scanned
          = (run_audit ⟨[], []⟩ "/v/" true
              [⟨"/v/a", "a", 3, 5, some "ha"⟩, ⟨"/v/b", "b", 4, 6, some "hb"⟩] false 2000
              (run_audit ⟨[], []⟩ "/v/" true
                [⟨"/v/a", "a", 3, 5, some "ha"⟩, ⟨"/v/b", "b", 4, 6, some "hb"⟩] false 1000
                none).1).2.skipped_unchanged :=
  C4_second_run_all_unchanged ⟨[], []⟩ "/v/"
    [⟨"/v/a", "a", 3, 5, some "ha"⟩, ⟨"/v/b", "b", 4, 6, some "hb"⟩] 1000 2000 none
    (by intro d hd; cases hd)
    (by intro f hf; fin_cases hf <;> simp [calculate_sha256])
    (by decide)

/-! ## Claim C6 — duplicate analysis -/

/-- C6: with no known-duplicates input, duplicate analysis reports a group
for hash `h` exactly when more than one active, non-archival record under
the target carries `h` (first conjunct); each reported group lists exactly
those members' paths and the first member's size (second conjunct); total
wasted space is the sum over reported groups of `size × (members − 1)`
(third conjunct); and on the store `{A: H/100, B: H/100, C: H2/50}` it
reports exactly one group, for `H`, with wasted space 100 and nothing for
`H2` (fourth conjunct). -/
theorem C6_duplicate_analysis (target : String) (store : Option DB)
    (hwf : WF (initDB store)) :
    (∀ h, ((find_duplicates target [] store).groups.any (fun g => g.hash == h)) = true
        ↔ (nonArchivalMembers (initDB store) target h).length > 1)
      ∧ (∀ g ∈ (find_duplicates target [] store).groups,
          g.files = (nonArchivalMembers (initDB store) target g.hash).map
              (fun r => r.file_path)
            ∧ (nonArchivalMembers (initDB store) target g.hash).length > 1
            ∧ g.size_bytes = ((nonArchivalMembers (initDB store) target g.hash).head?.map
                (fun r => r.file_size)).getD 0)
      ∧ (find_duplicates target [] store).total_wasted_space
          = ((find_duplicates target [] store).groups.map
              (fun g => g.size_bytes
                * ((nonArchivalMembers (initDB store) target g.hash).length - 1))).sum
      ∧ find_duplicates "/d/" [] (some c6DB)
          = ⟨some c6DB, [⟨"H", 100, ["/d/A", "/d/B"]⟩], 100, 1⟩ := by
  have hpaths := hwf.2.1
  refine ⟨?_, ?_, find_duplicates_waste target [] store, by rfl⟩
  · intro h
    rw [group_reported_iff target [] store hwf h]
    have hsup : suppressedByKnown [] h
        ((nonArchivalMembers (initDB store) target h).map (fun r => r.file_path))
        = false := rfl
    rw [hsup]
    simp
  · intro g hg
    rw [find_duplicates_groups] at hg
    obtain ⟨h', hh', hgf⟩ := List.mem_filterMap.mp hg
    obtain ⟨hhash, hsize, hfiles, hlen, -⟩ := groupFor_some_spec _ _ _ _ _ hgf
    have hded := dedup_eq_self _
      (nonArchivalMembers_paths_nodup (initDB store) target h' hpaths)
    subst hhash
    rw [hded] at hfiles
    exact ⟨hfiles, hlen, hsize⟩

/-- Witness for C6 at the three-record store of the claim. -/
theorem C6_duplicate_analysis_witness :
    (∀ h, ((find_duplicates "/d/" [] (some c6DB)).groups.any (fun g => g.hash == h)) = true
        ↔ (nonArchivalMembers (initDB (some c6DB)) "/d/" h).length > 1)
      ∧ (∀ g ∈ (find_duplicates "/d/" [] (some c6DB)).groups,
          g.files = (nonArchivalMembers (initDB (some c6DB)) "/d/" g.hash).map
              (fun r => r.file_path)
            ∧ (nonArchivalMembers (initDB (some c6DB)) "/d/" g.hash).length > 1
            ∧ g.size_bytes = ((nonArchivalMembers (initDB (some c6DB)) "/d/" g.hash).head?.map
                (fun r => r.file_size)).getD 0)
      ∧ (find_duplicates "/d/" [] (some c6DB)).total_wasted_space
          = ((find_duplicates "/d/" [] (some c6DB)).groups.map
              (fun g => g.size_bytes
                * ((nonArchivalMembers (initDB (some c6DB)) "/d/" g.hash).length - 1))).sum
      ∧ find_duplicates "/d/" [] (some c6DB)
          = ⟨some c6DB, [⟨"H", 100, ["/d/A", "/d/B"]⟩], 100, 1⟩ :=
  C6_duplicate_analysis "/d/" (some c6DB)
    (by refine ⟨?_, ?_, ?_⟩ <;> decide)

/-! ## Claim C7 — known-duplicates suppression -/

/-- C7: for a duplicate group (more than one active, non-archival member
under the target) with hash `h`, the group is suppressed from the report
exactly when the known-duplicates mapping has an entry for `h` whose
accepted path set contains every current member path — i.e. it is reported
iff some member path lies outside the accepted set or there is no entry; and
supplying `{A, B}` for `H` suppresses the claim's group entirely. -/
theorem C7_known_duplicates_suppression (target : String)
    (m : List (String × List String)) (store : Option DB)
    (hwf : WF (initDB store)) :
    (∀ h, (nonArchivalMembers (initDB store) target h).length > 1 →
        (((find_duplicates target m store).groups.any (fun g => g.hash == h)) = true
          ↔ ¬∃ accepted, lookupKnown m h = some accepted
              ∧ ∀ p ∈ (nonArchivalMembers (initDB store) target h).map
                  (fun r => r.file_path), accepted.contains p = true))
      ∧ find_duplicates "/d/" [("H", ["/d/A", "/d/B"])] (some c6DB)
          = ⟨some c6DB, [], 0, 0⟩ := by
  refine ⟨?_, by rfl⟩
  intro h hlen
  rw [group_reported_iff target m store hwf h]
  rw [← suppressed_iff m h
    ((nonArchivalMembers (initDB store) target h).map (fun r => r.file_path))]
  constructor
  · rintro ⟨-, hsup⟩ htrue
    rw [htrue] at hsup
    cases hsup
  · intro hnot
    refine ⟨hlen, ?_⟩
    cases hc : suppressedByKnown m h
        ((nonArchivalMembers (initDB store) target h).map (fun r => r.file_path))
    · rfl
    · exact absurd hc hnot

/-- Witness for C7 at the three-record store with `{A, B}` accepted for
hash `H`. -/
theorem C7_known_duplicates_suppression_witness :
    (∀ h, (nonArchivalMembers (initDB (some c6DB)) "/d/" h).length > 1 →
        (((find_duplicates "/d/" [("H", ["/d/A", "/d/B"])] (some c6DB)).groups.any
            (fun g => g.hash == h)) = true
          ↔ ¬∃ accepted, lookupKnown [("H", ["/d/A", "/d/B"])] h = some accepted
              ∧ ∀ p ∈ (nonArchivalMembers (initDB (some c6DB)) "/d/" h).map
                  (fun r => r.file_path), accepted.contains p = true))
      ∧ find_duplicates "/d/" [("H", ["/d/A", "/d/B"])] (some c6DB)
          = ⟨some c6DB, [], 0, 0⟩ :=
  C7_known_duplicates_suppression "/d/" [("H", ["/d/A", "/d/B"])] (some c6DB)
    (by refine ⟨?_, ?_, ?_⟩ <;> decide)

end BackupAuditor
